import Mathlib

/-!
# Hardpoly renderer: draw batching and GPU resource caching

A shallow embedding of `src/polyrenderer/hardpoly/hardpolyrenderer.cpp`.

Modelling conventions.

* C++ `int` values are mathematical integers (`Int`).  Signed overflow is undefined behaviour
  in C++; the vertex cursor, alpha sums and loop counters are not given a meaning beyond the
  range of `int`.  In the pixel conversions, where buffer sizes and indices are products of the
  image dimensions, every `int` product and sum is reduced to 32 bits in two's complement
  (`int32`), as the compiled code computes it.  `uint32_t` arithmetic is reduced modulo
  `2 ^ 32`, `uint8_t` values are elements of `Fin 256`.
* A pointer is the address it holds together with the data stored there; a nullable pointer is
  an `Option`.  The resource caches are keyed on the address only.
* Heap objects owned through `std::unique_ptr` / `std::shared_ptr` (draw batches, GPU textures)
  live in a list (the heap); a C++ pointer to such an object is its index in that list, so that
  two pointers are the same object exactly when the indices are equal.
* Calls into the GPU context (`mContext->...`, `gl...`, buffer map/unmap/upload) are recorded, in
  program order, in the field `log` of the renderer.  Vertex payloads and floating point uniform
  values are not represented; `glGetUniformLocation` / `glUniform1i` bookkeeping is left out.
* Constants and tables declared in headers that are not part of the sources at hand
  (`MaxVertices`, `NUMCOLORMAPS`, `GPalette.BaseColors`, the screen size, the colour-part
  accessors) are fields of `Globals`.
-/

namespace Hardpoly

/-! ## CPU side data -/

/-- A `uint8_t`. -/
abbrev Byte := Fin 256

/-- A `const uint8_t *` that is not null: an address and the bytes stored from there on. -/
structure BytePtr where
  addr : Nat
  data : List Byte
deriving DecidableEq, Repr

/-- The byte `p[i]`; bytes beyond the recorded data read as `0`. -/
def BytePtr.read (p : BytePtr) (i : Int) : Byte := p.data.getD i.toNat 0

/-- The byte `p[i]` of a nullable pointer; a null pointer reads as `0` (the C++ is undefined). -/
def readByte (p : Option BytePtr) (i : Int) : Byte :=
  match p with
  | some q => q.read i
  | none => 0

/-- The address a nullable byte pointer holds, the key of the byte-pointer caches. -/
def ptrKey (p : Option BytePtr) : Option Nat := p.map (fun q => q.addr)

/-- An engine texture `FTexture` behind its address: what `GetWidth`, `GetHeight`, `GetPixels`
and `GetPixelsBgra` return. -/
structure FTexture where
  addr : Nat
  Width : Int
  Height : Int
  Pixels : List Byte
  PixelsBgra : List Nat
deriving DecidableEq, Repr

/-- The address a nullable `FTexture *` holds, the key of `mTextures`. -/
def texKey (t : Option FTexture) : Option Nat := t.map (fun q => q.addr)

/-- An entry of `GPalette.BaseColors`. -/
structure PalEntry where
  r : Byte
  g : Byte
  b : Byte
deriving DecidableEq, Repr

/-- Constants, tables and accessors taken from headers outside the translated file. -/
structure Globals where
  MaxVertices : Int
  NUMCOLORMAPS : Int
  BaseColors : Byte → PalEntry
  screenWidth : Int
  screenHeight : Int
  RPART : Nat → Nat
  GPART : Nat → Nat
  BPART : Nat → Nat
  APART : Nat → Nat

/-- The blend modes `TriBlendMode`.  The enumeration is declared in a header outside the
translated file; its values and their order are those of the comments that label the rows of
the tables of `GetSamplerMode` and `GetBlendSetter`. -/
inductive TriBlendMode where
  | TextureOpaque | TextureMasked | TextureAdd | TextureSub | TextureRevSub | TextureAddSrcColor
  | TranslatedOpaque | TranslatedMasked | TranslatedAdd | TranslatedSub | TranslatedRevSub
  | TranslatedAddSrcColor
  | Shaded | AddShaded | Stencil | AddStencil
  | FillOpaque | FillAdd | FillSub | FillRevSub | FillAddSrcColor
  | Skycap | Fuzz | FogBoundary
deriving DecidableEq, Repr

/-- The integer value `(int)triblend`. -/
def TriBlendMode.toNat : TriBlendMode → Nat
  | .TextureOpaque => 0 | .TextureMasked => 1 | .TextureAdd => 2 | .TextureSub => 3
  | .TextureRevSub => 4 | .TextureAddSrcColor => 5
  | .TranslatedOpaque => 6 | .TranslatedMasked => 7 | .TranslatedAdd => 8 | .TranslatedSub => 9
  | .TranslatedRevSub => 10 | .TranslatedAddSrcColor => 11
  | .Shaded => 12 | .AddShaded => 13 | .Stencil => 14 | .AddStencil => 15
  | .FillOpaque => 16 | .FillAdd => 17 | .FillSub => 18 | .FillRevSub => 19
  | .FillAddSrcColor => 20
  | .Skycap => 21 | .Fuzz => 22 | .FogBoundary => 23

inductive PolyDrawMode where
  | Triangles | TriangleStrip | TriangleFan
deriving DecidableEq, Repr

inductive GPUDrawMode where
  | Triangles | TriangleStrip | TriangleFan
deriving DecidableEq, Repr

/-- What the accessors of `PolyDrawArgs` return. -/
structure PolyDrawArgs where
  WriteColor : Bool
  FaceCullCCW : Bool
  VertexCount : Int
  Texture : Option FTexture
  TexturePixels : Option BytePtr
  TextureWidth : Int
  TextureHeight : Int
  Translation : Option BytePtr
  DrawMode : PolyDrawMode
  BaseColormap : Option BytePtr
  Light : Int
  FixedLight : Bool
  BlendMode : TriBlendMode
  Color : Nat
  SrcAlpha : Int
  DestAlpha : Int
  DepthTest : Bool
  WriteDepth : Bool
deriving DecidableEq, Repr

/-- What the accessors of `RectDrawArgs` return (the coordinates are carried uninterpreted). -/
structure RectDrawArgs where
  X0 : Int
  X1 : Int
  Y0 : Int
  Y1 : Int
  U0 : Int
  V0 : Int
  U1 : Int
  V1 : Int
  Light : Int
  Texture : Option FTexture
  BaseColormap : Option BytePtr
deriving DecidableEq, Repr

/-- The per-run uniform block; `AlphaTest` is the constant `0.5f` and the four components of
`FillColor` are determined by the colour word kept here. -/
structure FaceUniforms where
  Light : Int
  Mode : Int
  FillColor : Nat
deriving DecidableEq, Repr

structure DrawRun where
  Texture : Option FTexture
  Pixels : Option BytePtr
  PixelsWidth : Int
  PixelsHeight : Int
  Translation : Option BytePtr
  DrawMode : PolyDrawMode
  BaseColormap : Option BytePtr
  Uniforms : FaceUniforms
  BlendMode : TriBlendMode
  SrcAlpha : Int
  DestAlpha : Int
  DepthTest : Bool
  WriteDepth : Bool
  Start : Int
  NumVertices : Int
deriving DecidableEq, Repr

/-- A draw batch: its run list, and whether its GPU vertex buffer and vertex array exist. -/
structure DrawBatch where
  DrawRuns : List DrawRun
  Vertices : Bool
deriving DecidableEq, Repr

/-! ## GPU side objects and the command log -/

inductive GPUPixelFormat where
  | R8 | RGBA8 | RGBA16f | Depth24_Stencil8 | R32f
deriving DecidableEq, Repr

/-- A created `GPUTexture2D` with the pixel data it was created from. -/
structure GPUTexture2D where
  Width : Int
  Height : Int
  Mipmap : Bool
  Format : GPUPixelFormat
  Pixels : List Nat
deriving DecidableEq, Repr

inductive VertexArrayRef where
  | Batch (batch : Nat)
  | ScreenQuad
deriving DecidableEq, Repr

inductive ProgramRef where
  | OpaqueProgram | RectProgram | StencilProgram
deriving DecidableEq, Repr

inductive UniformsRef where
  | Frame (slot : Int)
  | Face
  | Rect
deriving DecidableEq, Repr

inductive SamplerRef where
  | Nearest | Linear
deriving DecidableEq, Repr

inductive BlendEquation where
  | FUNC_ADD | FUNC_SUBTRACT | FUNC_REVERSE_SUBTRACT
deriving DecidableEq, Repr

inductive BlendFactor where
  | ZERO | ONE | CONSTANT_ALPHA | ONE_MINUS_CONSTANT_ALPHA | CONSTANT_COLOR
  | SRC_COLOR | ONE_MINUS_SRC_COLOR | ONE_MINUS_SRC_ALPHA
deriving DecidableEq, Repr

/-- One call into the GPU layer.  Colour components of `ClearColorBuffer` are in tenths, those
of `BlendColor` are the numerators over `256`. -/
inductive GPUCommand where
  | ContextBegin
  | ContextEnd
  | SetFrameBuffer
  | DrawBuffers (n : Nat)
  | SetViewFB
  | SetViewport (x y width height : Int)
  | ClearColorBuffer (idx r g b a : Nat)
  | ClearDepthStencilBuffer (depth stencil : Nat)
  | MapWriteOnly (batch : Nat)
  | Unmap (batch : Nat)
  | UploadFrameUniforms (slot : Int)
  | UploadFaceUniforms (u : FaceUniforms)
  | UploadRectUniforms (args : RectDrawArgs)
  | SetVertexArray (va : Option VertexArrayRef)
  | SetProgram (p : Option ProgramRef)
  | SetUniforms (slot : Nat) (u : Option UniformsRef)
  | SetSampler (slot : Nat) (sampler : Option SamplerRef)
  | SetTexture (slot : Nat) (tex : Option Nat)
  | Enable_BLEND
  | Disable_BLEND
  | BlendEquation (eq : BlendEquation)
  | BlendFunc (src dst : BlendFactor)
  | BlendColor (r g b a : Int)
  | Draw (mode : GPUDrawMode) (start count : Int)
deriving DecidableEq, Repr

/-- A resource cache `std::map<pointer, std::shared_ptr<GPUTexture2D>>`: the entries that hold
a texture, newest first.  A key without an entry maps to the null `shared_ptr`. -/
abbrev TextureMap := List (Option Nat × Nat)

/-- The texture cached under `key`, if any. -/
def TextureMap.find : TextureMap → Option Nat → Option Nat
  | [], _ => none
  | (k, v) :: rest, key => if k = key then some v else TextureMap.find rest key

/-! ## Renderer state -/

/-- The members of `DrawBatcher`.  `heap` holds the `DrawBatch` objects the two pools own;
`mCurrentBatch`, `mVertices` and the pools refer to them by index (`mVertices` is the batch whose
vertex buffer is mapped). -/
structure DrawBatcher where
  heap : List DrawBatch
  mVertices : Option Nat
  mNextVertex : Int
  mCurrentBatch : Option Nat
  mCurrentFrameBatches : List Nat
  mLastFrameBatches : List Nat
  mNextBatch : Nat
deriving DecidableEq, Repr

/-- The members of `HardpolyRenderer` the translated functions use.  `mFrameUniforms` lists the
slots of the frame-uniform pool that hold a buffer, `gpuTextures` is the heap of created
textures, `log` the GPU calls issued so far. -/
structure HardpolyRenderer where
  mFrameUniformsDirty : Bool
  mCurrentFrameUniforms : Int
  mFrameUniforms : List Int
  mFaceUniforms : Bool
  mRectUniforms : Bool
  mScreenQuad : Bool
  mSceneFB : Option (Int × Int)
  mOpaqueProgram : Bool
  mRectProgram : Bool
  mStencilProgram : Bool
  mSamplerNearest : Bool
  mTextures : TextureMap
  mEngineTextures : TextureMap
  mColormaps : TextureMap
  mTranslationTextures : TextureMap
  gpuTextures : List GPUTexture2D
  mDrawBatcher : DrawBatcher
  log : List GPUCommand
deriving DecidableEq, Repr

/-- The batcher of a default-constructed `DrawBatcher`. -/
def DrawBatcher.init : DrawBatcher :=
  { heap := [], mVertices := none, mNextVertex := 0, mCurrentBatch := none,
    mCurrentFrameBatches := [], mLastFrameBatches := [], mNextBatch := 0 }

/-- The renderer right after construction. -/
def HardpolyRenderer.init : HardpolyRenderer :=
  { mFrameUniformsDirty := true, mCurrentFrameUniforms := 0, mFrameUniforms := [],
    mFaceUniforms := false, mRectUniforms := false, mScreenQuad := false, mSceneFB := none,
    mOpaqueProgram := false, mRectProgram := false, mStencilProgram := false,
    mSamplerNearest := false, mTextures := [], mEngineTextures := [], mColormaps := [],
    mTranslationTextures := [], gpuTextures := [], mDrawBatcher := DrawBatcher.init, log := [] }

/-- Append GPU calls to the log. -/
def HardpolyRenderer.emit (s : HardpolyRenderer) (cmds : List GPUCommand) : HardpolyRenderer :=
  { s with log := s.log ++ cmds }

/-- The run list of the batch object `id` (empty when there is no such object). -/
def DrawBatcher.batchRuns (b : DrawBatcher) (id : Nat) : List DrawRun :=
  match b.heap[id]? with
  | some x => x.DrawRuns
  | none => []

/-- The runs of the current batch that have not been dispatched yet. -/
def DrawBatcher.pending (b : DrawBatcher) : List DrawRun :=
  match b.mCurrentBatch with
  | some id => b.batchRuns id
  | none => []

/-! ## Blend-mode tables and blend state setters -/

/-- The table `modes` of `GetSamplerMode`; the sampling modes are numbered
`Texture = 0, Translated, Shaded, Stencil, Fill, Skycap, Fuzz, FogBoundary = 7`. -/
def modes : List Int :=
  [0, 0, 0, 0, 0, 0,
   1, 1, 1, 1, 1, 1,
   2, 2,
   3, 3,
   4, 4, 4, 4, 4,
   5,
   6,
   7]

def GetSamplerMode (triblend : TriBlendMode) : Int :=
  modes.get ⟨triblend.toNat, by cases triblend <;> decide⟩

/-- The member functions a `BlendSetterFunc` can point to. -/
inductive BlendSetterFunc where
  | SetOpaqueBlend | SetMaskedBlend | SetAddClampBlend | SetSubClampBlend
  | SetRevSubClampBlend | SetAddSrcColorBlend | SetShadedBlend | SetAddClampShadedBlend
deriving DecidableEq, Repr

/-- The table `blendsetters` of `GetBlendSetter`. -/
def blendsetters : List BlendSetterFunc :=
  [.SetOpaqueBlend, .SetMaskedBlend, .SetAddClampBlend, .SetSubClampBlend,
   .SetRevSubClampBlend, .SetAddSrcColorBlend,
   .SetOpaqueBlend, .SetMaskedBlend, .SetAddClampBlend, .SetSubClampBlend,
   .SetRevSubClampBlend, .SetAddSrcColorBlend,
   .SetShadedBlend, .SetAddClampShadedBlend,
   .SetShadedBlend, .SetAddClampShadedBlend,
   .SetOpaqueBlend, .SetAddClampBlend, .SetSubClampBlend, .SetRevSubClampBlend,
   .SetAddSrcColorBlend,
   .SetOpaqueBlend,
   .SetShadedBlend,
   .SetOpaqueBlend]

def GetBlendSetter (triblend : TriBlendMode) : BlendSetterFunc :=
  blendsetters.get ⟨triblend.toNat, by cases triblend <;> decide⟩

def SetOpaqueBlend (_srcalpha _destalpha : Int) : List GPUCommand :=
  [.Disable_BLEND, .BlendEquation .FUNC_ADD, .BlendFunc .ONE .ZERO]

def SetMaskedBlend (_srcalpha _destalpha : Int) : List GPUCommand :=
  [.Enable_BLEND, .BlendEquation .FUNC_ADD, .BlendFunc .ONE .ONE_MINUS_SRC_ALPHA]

/-- The source factor chosen by `SetAlphaBlendFunc`.  The C++ compares the `int` argument with
`0.0f` and `1.0f`; an `int` converts to one of these two floats exactly when it is `0`, or
`1`, so the comparisons are those of the integers. -/
def srcblend (srcalpha : Int) : BlendFactor :=
  if srcalpha = 0 then .ZERO
  else if srcalpha = 1 then .ONE
  else .CONSTANT_ALPHA

/-- The destination factor chosen by `SetAlphaBlendFunc`. -/
def destblend (srcalpha destalpha : Int) : BlendFactor :=
  if destalpha = 0 then .ZERO
  else if destalpha = 1 then .ONE
  else if srcalpha + destalpha ≥ 255 then .ONE_MINUS_CONSTANT_ALPHA
  else .CONSTANT_COLOR

def SetAlphaBlendFunc (srcalpha destalpha : Int) : List GPUCommand :=
  [.BlendColor destalpha destalpha destalpha srcalpha,
   .BlendFunc (srcblend srcalpha) (destblend srcalpha destalpha)]

def SetAddClampBlend (srcalpha destalpha : Int) : List GPUCommand :=
  [.Enable_BLEND, .BlendEquation .FUNC_ADD] ++ SetAlphaBlendFunc srcalpha destalpha

def SetSubClampBlend (srcalpha destalpha : Int) : List GPUCommand :=
  [.Enable_BLEND, .BlendEquation .FUNC_SUBTRACT] ++ SetAlphaBlendFunc srcalpha destalpha

def SetRevSubClampBlend (srcalpha destalpha : Int) : List GPUCommand :=
  [.Enable_BLEND, .BlendEquation .FUNC_REVERSE_SUBTRACT] ++ SetAlphaBlendFunc srcalpha destalpha

def SetAddSrcColorBlend (_srcalpha _destalpha : Int) : List GPUCommand :=
  [.Enable_BLEND, .BlendEquation .FUNC_ADD, .BlendFunc .SRC_COLOR .ONE_MINUS_SRC_COLOR]

def SetShadedBlend (_srcalpha _destalpha : Int) : List GPUCommand :=
  [.Enable_BLEND, .BlendEquation .FUNC_ADD, .BlendFunc .ONE .ONE_MINUS_SRC_ALPHA]

def SetAddClampShadedBlend (_srcalpha _destalpha : Int) : List GPUCommand :=
  [.Enable_BLEND, .BlendEquation .FUNC_ADD, .BlendFunc .ONE .ONE]

/-- The call `(*this.*blendSetter)(srcalpha, destalpha)`. -/
def BlendSetterFunc.call (f : BlendSetterFunc) (srcalpha destalpha : Int) : List GPUCommand :=
  match f with
  | .SetOpaqueBlend => Hardpoly.SetOpaqueBlend srcalpha destalpha
  | .SetMaskedBlend => Hardpoly.SetMaskedBlend srcalpha destalpha
  | .SetAddClampBlend => Hardpoly.SetAddClampBlend srcalpha destalpha
  | .SetSubClampBlend => Hardpoly.SetSubClampBlend srcalpha destalpha
  | .SetRevSubClampBlend => Hardpoly.SetRevSubClampBlend srcalpha destalpha
  | .SetAddSrcColorBlend => Hardpoly.SetAddSrcColorBlend srcalpha destalpha
  | .SetShadedBlend => Hardpoly.SetShadedBlend srcalpha destalpha
  | .SetAddClampShadedBlend => Hardpoly.SetAddClampShadedBlend srcalpha destalpha

/-! ## Pixel conversions and the resource caches -/

/-- The loop `for (int i = 0; i < n; i++) body(i)` run on a state. -/
def forLoop {σ : Type} (n : Int) (body : Int → σ → σ) (init : σ) : σ :=
  (List.range n.toNat).foldl (fun st (i : Nat) => body (i : Int) st) init

/-- The value of an `int` expression whose mathematical result is `v`: the result reduced to
32 bits in two's complement, which is what the compiled code computes (for a result within the
range of `int` this is `v` itself). -/
def int32 (v : Int) : Int := (v + 2 ^ 31) % 2 ^ 32 - 2 ^ 31

/-- The conversion of an `int` to the 64-bit `size_t` that `std::vector::resize` takes.  (A
negative `int` becomes a size that no allocation can serve, and `resize` throws; the exception
is not represented.) -/
def toSizeT (v : Int) : Nat := (v % 2 ^ 64).toNat

/-- The store `dest[i] = v` through the pointer `dest = pixels.data()`, as far as the buffer is
concerned: a store at an index inside the buffer replaces that element, a store at any other
index leaves every element of the buffer as it is. -/
def storeAt {α : Type} (dest : List α) (i : Int) (v : α) : List α :=
  if 0 ≤ i then dest.set i.toNat v else dest

/-- The conversion shared by `GetTexturePal` and `GetEngineTexturePal` for a non-null source:
`pixels.resize(width * height)` followed by the loop nest
`dest[x + y * width] = src[y + x * height]`, every product and sum computed in `int`. -/
def ConvertPal (src : Int → Byte) (width height : Int) : List Byte :=
  forLoop height
    (fun y dest => forLoop width
      (fun x dest =>
        storeAt dest (int32 (x + int32 (y * width))) (src (int32 (y + int32 (x * height)))))
      dest)
    (List.replicate (toSizeT (int32 (width * height))) 0)

/-- The word `red | (green << 8) | (blue << 16) | (alpha << 24)` in `uint32_t` arithmetic. -/
def packRGBA (red green blue alpha : Nat) : Nat :=
  (red % 2 ^ 32 ||| (green <<< 8) % 2 ^ 32 ||| (blue <<< 16) % 2 ^ 32
    ||| (alpha <<< 24) % 2 ^ 32) % 2 ^ 32

/-- The conversion of `GetTextureBgra` for a non-null texture: the same loop nest on 32-bit
pixels, every product and sum computed in `int`. -/
def ConvertBgra (G : Globals) (src : Int → Nat) (width height : Int) : List Nat :=
  forLoop height
    (fun y dest => forLoop width
      (fun x dest =>
        let pixel := src (int32 (y + int32 (x * height))) % 2 ^ 32
        storeAt dest (int32 (x + int32 (y * width)))
          (packRGBA (G.RPART pixel) (G.GPART pixel) (G.BPART pixel) (G.APART pixel))) dest)
    (List.replicate (toSizeT (int32 (width * height))) 0)

/-- The array `rgbacolormap` that `GetColormapTexture` fills. -/
def ConvertColormap (G : Globals) (basecolormap : Option BytePtr) : List Nat :=
  forLoop (256 * G.NUMCOLORMAPS)
    (fun i rgbacolormap =>
      let entry := G.BaseColors (readByte basecolormap i)
      rgbacolormap.set i.toNat (packRGBA entry.r.val entry.g.val entry.b.val 255))
    (List.replicate (256 * G.NUMCOLORMAPS).toNat 0)

/-- The call `std::make_shared<GPUTexture2D>(...)`: the new object is put on the heap and its
index is the pointer returned. -/
def HardpolyRenderer.makeTexture (s : HardpolyRenderer) (tex : GPUTexture2D) :
    Nat × HardpolyRenderer :=
  (s.gpuTextures.length, { s with gpuTextures := s.gpuTextures ++ [tex] })

def HardpolyRenderer.GetTranslationTexture (s : HardpolyRenderer)
    (translation : Option BytePtr) : Nat × HardpolyRenderer :=
  match s.mTranslationTextures.find (ptrKey translation) with
  | some texture => (texture, s)
  | none =>
    let r := s.makeTexture
      { Width := 256, Height := 1, Mipmap := false, Format := .R8,
        Pixels := (List.range 256).map (fun i => (readByte translation (i : Int)).val) }
    (r.1, { r.2 with mTranslationTextures := (ptrKey translation, r.1) :: r.2.mTranslationTextures })

def HardpolyRenderer.GetEngineTexturePal (s : HardpolyRenderer)
    (src : Option BytePtr) (width height : Int) : Nat × HardpolyRenderer :=
  match s.mEngineTextures.find (ptrKey src) with
  | some texture => (texture, s)
  | none =>
    let r := match src with
      | some p => s.makeTexture
          { Width := width, Height := height, Mipmap := false, Format := .R8,
            Pixels := (ConvertPal p.read width height).map (fun v : Byte => v.val) }
      | none => s.makeTexture
          { Width := 1, Height := 1, Mipmap := false, Format := .R8, Pixels := [0] }
    (r.1, { r.2 with mEngineTextures := (ptrKey src, r.1) :: r.2.mEngineTextures })

def HardpolyRenderer.GetColormapTexture (G : Globals) (s : HardpolyRenderer)
    (basecolormap : Option BytePtr) : Nat × HardpolyRenderer :=
  match s.mColormaps.find (ptrKey basecolormap) with
  | some texture => (texture, s)
  | none =>
    let r := s.makeTexture
      { Width := 256, Height := G.NUMCOLORMAPS, Mipmap := false, Format := .RGBA8,
        Pixels := ConvertColormap G basecolormap }
    (r.1, { r.2 with mColormaps := (ptrKey basecolormap, r.1) :: r.2.mColormaps })

def HardpolyRenderer.GetTextureBgra (G : Globals) (s : HardpolyRenderer)
    (ztexture : Option FTexture) : Nat × HardpolyRenderer :=
  match s.mTextures.find (texKey ztexture) with
  | some texture => (texture, s)
  | none =>
    let r := match ztexture with
      | some z => s.makeTexture
          { Width := z.Width, Height := z.Height, Mipmap := true, Format := .RGBA8,
            Pixels := ConvertBgra G (fun i => z.PixelsBgra.getD i.toNat 0) z.Width z.Height }
      | none => s.makeTexture
          { Width := 1, Height := 1, Mipmap := false, Format := .RGBA8, Pixels := [0xff00ffff] }
    (r.1, { r.2 with mTextures := (texKey ztexture, r.1) :: r.2.mTextures })

def HardpolyRenderer.GetTexturePal (s : HardpolyRenderer)
    (ztexture : Option FTexture) : Nat × HardpolyRenderer :=
  match s.mTextures.find (texKey ztexture) with
  | some texture => (texture, s)
  | none =>
    let r := match ztexture with
      | some z => s.makeTexture
          { Width := z.Width, Height := z.Height, Mipmap := false, Format := .R8,
            Pixels := (ConvertPal (fun i => z.Pixels.getD i.toNat 0) z.Width z.Height).map
              (fun v : Byte => v.val) }
      | none => s.makeTexture
          { Width := 1, Height := 1, Mipmap := false, Format := .R8, Pixels := [0] }
    (r.1, { r.2 with mTextures := (texKey ztexture, r.1) :: r.2.mTextures })

/-! ## Frame uniforms and batch dispatch -/

def HardpolyRenderer.UpdateFrameUniforms (s : HardpolyRenderer) : HardpolyRenderer :=
  if s.mFrameUniformsDirty then
    let cur := Int.tmod (s.mCurrentFrameUniforms + 1) 3
    let s1 := { s with mCurrentFrameUniforms := cur }
    let s2 := if cur ∈ s1.mFrameUniforms then s1
      else { s1 with mFrameUniforms := cur :: s1.mFrameUniforms }
    let s3 := s2.emit [.UploadFrameUniforms cur]
    { s3 with mFrameUniformsDirty := false }
  else s

/-- The `GPUDrawMode` the `switch (run.DrawMode)` of `RenderBatch` draws with. -/
def toGPUDrawMode : PolyDrawMode → GPUDrawMode
  | .Triangles => .Triangles
  | .TriangleStrip => .TriangleStrip
  | .TriangleFan => .TriangleFan

/-- The body of the loop `for (const auto &run : batch->DrawRuns)` of `RenderBatch`. -/
def HardpolyRenderer.RenderRun (G : Globals) (s : HardpolyRenderer) (run : DrawRun) :
    HardpolyRenderer :=
  let s := s.emit [.UploadFaceUniforms run.Uniforms]
  let s := s.emit ((GetBlendSetter run.BlendMode).call run.SrcAlpha run.DestAlpha)
  let s := match run.Texture with
    | some t =>
      let r := s.GetTexturePal (some t)
      r.2.emit [.SetTexture 0 (some r.1)]
    | none =>
      match run.Pixels with
      | some p =>
        let r := s.GetEngineTexturePal (some p) run.PixelsWidth run.PixelsHeight
        r.2.emit [.SetTexture 0 (some r.1)]
      | none => s
  let r := s.GetColormapTexture G run.BaseColormap
  let s := r.2.emit [.SetTexture 1 (some r.1)]
  let s := match run.Translation with
    | some t =>
      let r := s.GetTranslationTexture (some t)
      r.2.emit [.SetTexture 2 (some r.1)]
    | none => s
  s.emit [.Draw (toGPUDrawMode run.DrawMode) run.Start run.NumVertices]

def HardpolyRenderer.RenderBatch (G : Globals) (s : HardpolyRenderer) (batch : Nat) :
    HardpolyRenderer :=
  let s := s.UpdateFrameUniforms
  let s := { s with mFaceUniforms := true }
  let s := s.emit
    [.SetVertexArray (some (.Batch batch)), .SetProgram (some .OpaqueProgram),
     .SetUniforms 0 (some (.Frame s.mCurrentFrameUniforms)), .SetUniforms 1 (some .Face),
     .SetSampler 0 (some .Nearest), .SetSampler 1 (some .Nearest), .SetSampler 2 (some .Nearest)]
  let s := (s.mDrawBatcher.batchRuns batch).foldl (HardpolyRenderer.RenderRun G) s
  s.emit
    [.SetTexture 0 none, .SetTexture 1 none, .SetTexture 2 none,
     .SetSampler 0 none, .SetSampler 1 none, .SetSampler 2 none,
     .SetUniforms 0 none, .SetUniforms 1 none, .SetVertexArray none, .SetProgram none]

/-! ## The draw batcher -/

/-- The block `if (mVertices) { mCurrentBatch->Vertices->Unmap(); mVertices = nullptr; }` of
`Flush`.  (A mapped buffer without a current batch would be a null dereference; nothing is
logged for it.) -/
def DrawBatcher.unmapVertices (hardpoly : HardpolyRenderer) : HardpolyRenderer :=
  match hardpoly.mDrawBatcher.mVertices with
  | some _ =>
    let h := match hardpoly.mDrawBatcher.mCurrentBatch with
      | some b => hardpoly.emit [.Unmap b]
      | none => hardpoly
    { h with mDrawBatcher := { h.mDrawBatcher with mVertices := none } }
  | none => hardpoly

def DrawBatcher.Flush (G : Globals) (hardpoly : HardpolyRenderer) : HardpolyRenderer :=
  let h1 := DrawBatcher.unmapVertices hardpoly
  let h2 := match h1.mDrawBatcher.mCurrentBatch with
    | some b =>
      if (h1.mDrawBatcher.batchRuns b).isEmpty then h1 else h1.RenderBatch G b
    | none => h1
  { h2 with mDrawBatcher := { h2.mDrawBatcher with mNextVertex := 0, mCurrentBatch := none } }

/-- The block of `GetVertices` guarded by `if (!mVertices)`, for a batcher that has no mapped
vertex buffer: take (or first create) the pool slot `mNextBatch`, clear its runs, create its
vertex buffer if it has none and map it.  An index past the end of the pool is undefined in
the C++; here it leaves the batcher without a current batch. -/
def DrawBatcher.acquire (hardpoly : HardpolyRenderer) : HardpolyRenderer :=
  let d := hardpoly.mDrawBatcher
  let d := if d.mNextBatch = d.mCurrentFrameBatches.length then
      { d with heap := d.heap ++ [{ DrawRuns := [], Vertices := false }],
               mCurrentFrameBatches := d.mCurrentFrameBatches ++ [d.heap.length] }
    else d
  match d.mCurrentFrameBatches[d.mNextBatch]? with
  | some b =>
    let d := { d with mCurrentBatch := some b, mNextBatch := d.mNextBatch + 1 }
    let d := { d with heap := d.heap.modify (fun _ => { DrawRuns := [], Vertices := true }) b }
    let d := { d with mVertices := some b }
    { hardpoly with mDrawBatcher := d, log := hardpoly.log ++ [.MapWriteOnly b] }
  | none =>
    { hardpoly with mDrawBatcher := { d with mCurrentBatch := none, mNextBatch := d.mNextBatch + 1 } }

def DrawBatcher.GetVertices (G : Globals) (hardpoly : HardpolyRenderer) (numVertices : Int) :
    HardpolyRenderer :=
  let h := if hardpoly.mDrawBatcher.mNextVertex + numVertices > G.MaxVertices then
      DrawBatcher.Flush G hardpoly
    else hardpoly
  match h.mDrawBatcher.mVertices with
  | none => DrawBatcher.acquire h
  | some _ => h

def DrawBatcher.NextFrame (d : DrawBatcher) : DrawBatcher :=
  { d with mCurrentFrameBatches := d.mLastFrameBatches,
           mLastFrameBatches := d.mCurrentFrameBatches,
           mNextBatch := 0 }

/-! ## Frame lifecycle and draw submission -/

def HardpolyRenderer.SetupFramebuffer (G : Globals) (s : HardpolyRenderer) : HardpolyRenderer :=
  let s := if s.mSceneFB = some (G.screenWidth, G.screenHeight) then s
    else { s with mSceneFB := some (G.screenWidth, G.screenHeight) }
  s.emit [.SetFrameBuffer, .DrawBuffers 3]

def HardpolyRenderer.CompileShaders (s : HardpolyRenderer) : HardpolyRenderer :=
  { s with mOpaqueProgram := true, mRectProgram := true, mStencilProgram := true }

def HardpolyRenderer.CreateSamplers (s : HardpolyRenderer) : HardpolyRenderer :=
  { s with mSamplerNearest := true }

def HardpolyRenderer.Begin (G : Globals) (s : HardpolyRenderer) : HardpolyRenderer :=
  let s := { s with mFrameUniformsDirty := true }
  let s := s.emit [.ContextBegin]
  let s := s.SetupFramebuffer G
  let s := s.CompileShaders
  let s := s.CreateSamplers
  { s with mDrawBatcher := s.mDrawBatcher.NextFrame }

def HardpolyRenderer.End (G : Globals) (s : HardpolyRenderer) : HardpolyRenderer :=
  let s := DrawBatcher.Flush G s
  s.emit [.SetViewport 0 0 G.screenWidth G.screenHeight, .ContextEnd, .SetViewFB]

def HardpolyRenderer.ClearBuffers (G : Globals) (s : HardpolyRenderer) : HardpolyRenderer :=
  let s := DrawBatcher.Flush G s
  s.emit [.ClearColorBuffer 0 5 5 2 10, .ClearColorBuffer 1 0 0 0 0,
          .ClearColorBuffer 2 10 0 0 0, .ClearDepthStencilBuffer 10 0]

def HardpolyRenderer.SetViewport (G : Globals) (s : HardpolyRenderer)
    (x y width height : Int) : HardpolyRenderer :=
  let s := DrawBatcher.Flush G s
  s.emit [.SetViewport x y width height]

/-- The `DrawRun` that `DrawArray` builds for a draw request whose vertices are written from
vertex `start` on.  The pixel-buffer members, which `DrawArray` assigns only for a request
without texture, are otherwise those of a default-constructed `DrawRun` (null and zero). -/
def makeRun (drawargs : PolyDrawArgs) (start : Int) : DrawRun :=
  { Texture := drawargs.Texture,
    Pixels := match drawargs.Texture with
      | some _ => none
      | none => drawargs.TexturePixels,
    PixelsWidth := match drawargs.Texture with
      | some _ => 0
      | none => drawargs.TextureWidth,
    PixelsHeight := match drawargs.Texture with
      | some _ => 0
      | none => drawargs.TextureHeight,
    Translation := drawargs.Translation,
    DrawMode := drawargs.DrawMode,
    BaseColormap := drawargs.BaseColormap,
    Uniforms :=
      { Light := if drawargs.FixedLight then -drawargs.Light - 1 else drawargs.Light,
        Mode := GetSamplerMode drawargs.BlendMode,
        FillColor := drawargs.Color },
    BlendMode := drawargs.BlendMode,
    SrcAlpha := drawargs.SrcAlpha,
    DestAlpha := drawargs.DestAlpha,
    DepthTest := drawargs.DepthTest,
    WriteDepth := drawargs.WriteDepth,
    Start := start,
    NumVertices := drawargs.VertexCount }

/-- The statement `mCurrentBatch->DrawRuns.push_back(run)`. -/
def DrawBatcher.pushRun (d : DrawBatcher) (run : DrawRun) : DrawBatcher :=
  match d.mCurrentBatch with
  | some b => { d with heap := d.heap.modify (fun x => { x with DrawRuns := x.DrawRuns ++ [run] }) b }
  | none => d

def HardpolyRenderer.DrawArray (G : Globals) (s : HardpolyRenderer) (drawargs : PolyDrawArgs) :
    HardpolyRenderer :=
  if !drawargs.WriteColor then s
  else
    let vcount := drawargs.VertexCount
    if vcount < 3 then s
    else
      let s := DrawBatcher.GetVertices G s vcount
      let run := makeRun drawargs s.mDrawBatcher.mNextVertex
      let d := s.mDrawBatcher
      let d := { d with mNextVertex := d.mNextVertex + run.NumVertices }
      { s with mDrawBatcher := d.pushRun run }

def HardpolyRenderer.DrawRect (G : Globals) (s : HardpolyRenderer) (args : RectDrawArgs) :
    HardpolyRenderer :=
  let s := s.UpdateFrameUniforms
  let s := { s with mScreenQuad := true }
  let s := { s with mRectUniforms := true }
  let s := s.emit [.UploadRectUniforms args]
  let s := s.emit
    [.SetVertexArray (some .ScreenQuad), .SetProgram (some .RectProgram),
     .SetUniforms 0 (some (.Frame s.mCurrentFrameUniforms)), .SetUniforms 1 (some .Rect),
     .SetSampler 0 (some .Nearest), .SetSampler 1 (some .Nearest)]
  let r := s.GetTexturePal args.Texture
  let s := r.2.emit [.SetTexture 0 (some r.1)]
  let r := s.GetColormapTexture G args.BaseColormap
  let s := r.2.emit [.SetTexture 1 (some r.1)]
  let s := s.emit [.Draw .TriangleStrip 0 4]
  s.emit
    [.SetTexture 0 none, .SetTexture 1 none, .SetSampler 0 none, .SetSampler 1 none,
     .SetUniforms 0 none, .SetUniforms 1 none, .SetVertexArray none, .SetProgram none]

/-! ## Observations on the command log and well-formed batchers -/

/-- The draw calls in a stretch of the log, as `(mode, start, count)`. -/
def drawCalls (log : List GPUCommand) : List (GPUDrawMode × Int × Int) :=
  log.filterMap fun c =>
    match c with
    | .Draw mode start count => some (mode, start, count)
    | _ => none

/-- The batches for which `RenderBatch` was entered in a stretch of the log: `RenderBatch` is
the only place that binds the vertex array of a batch. -/
def renderBatchCalls (log : List GPUCommand) : List Nat :=
  log.filterMap fun c =>
    match c with
    | .SetVertexArray (some (.Batch b)) => some b
    | _ => none

/-- The draw call `RenderBatch` issues for a run. -/
def runDraw (run : DrawRun) : GPUDrawMode × Int × Int :=
  (toGPUDrawMode run.DrawMode, run.Start, run.NumVertices)

/-- The log `l'` continues the log `l` by calls whose draw calls are `draws` and in which
`RenderBatch` is entered for the batches `batches`, in this order. -/
def Emitted (l l' : List GPUCommand) (draws : List (GPUDrawMode × Int × Int))
    (batches : List Nat) : Prop :=
  ∃ cmds, l' = l ++ cmds ∧ drawCalls cmds = draws ∧ renderBatchCalls cmds = batches

/-- A draw request passes the two early returns of `DrawArray`. -/
def accepted (drawargs : PolyDrawArgs) : Bool :=
  drawargs.WriteColor && decide (3 ≤ drawargs.VertexCount)

/-- The combined vertex count of the accepted requests of a sequence. -/
def acceptedVertices : List PolyDrawArgs → Int
  | [] => 0
  | a :: rest => (if accepted a then a.VertexCount else 0) + acceptedVertices rest

/-- The runs of the accepted requests of a sequence, in submission order, laid out one after
the other from vertex `start` on. -/
def submittedRuns : List PolyDrawArgs → Int → List DrawRun
  | [], _ => []
  | a :: rest, start =>
    if accepted a then makeRun a start :: submittedRuns rest (start + a.VertexCount)
    else submittedRuns rest start

/-- The link between the current batch, the mapped buffer and the pool index: without a
current batch nothing is mapped and the cursor is `0`; a current batch is the mapped one and
sits in the slot of the current-frame pool handed out last. -/
def DrawBatcher.currentOK (d : DrawBatcher) : Prop :=
  match d.mCurrentBatch with
  | none => d.mVertices = none ∧ d.mNextVertex = 0
  | some b => d.mVertices = some b ∧ 0 < d.mNextBatch ∧
      d.mCurrentFrameBatches[d.mNextBatch - 1]? = some b

instance (d : DrawBatcher) : Decidable d.currentOK := by
  unfold DrawBatcher.currentOK
  split <;> infer_instance

/-- Well-formed batcher states: those that arise when every frame is closed by `End` before
the next `Begin`. -/
def DrawBatcher.WF (d : DrawBatcher) : Prop :=
  d.mNextBatch ≤ d.mCurrentFrameBatches.length ∧
  (∀ id ∈ d.mCurrentFrameBatches, id < d.heap.length) ∧
  (∀ id ∈ d.mLastFrameBatches, id < d.heap.length) ∧
  d.mCurrentFrameBatches.Nodup ∧
  d.mLastFrameBatches.Nodup ∧
  d.currentOK

instance (d : DrawBatcher) : Decidable d.WF := by
  unfold DrawBatcher.WF
  infer_instance

/-! ## Sequences of resolver calls -/

/-- The four resource caches of the renderer. -/
inductive CacheId where
  | Textures | EngineTextures | Colormaps | TranslationTextures
deriving DecidableEq, Repr

/-- The cache map behind a `CacheId`. -/
def HardpolyRenderer.cache (s : HardpolyRenderer) : CacheId → TextureMap
  | .Textures => s.mTextures
  | .EngineTextures => s.mEngineTextures
  | .Colormaps => s.mColormaps
  | .TranslationTextures => s.mTranslationTextures

/-- A call of one of the five resolvers with its arguments. -/
inductive ResolverCall where
  | GetTexturePal (ztexture : Option FTexture)
  | GetTextureBgra (ztexture : Option FTexture)
  | GetEngineTexturePal (src : Option BytePtr) (width height : Int)
  | GetColormapTexture (basecolormap : Option BytePtr)
  | GetTranslationTexture (translation : Option BytePtr)
deriving DecidableEq, Repr

/-- The cache a resolver looks its argument up in. -/
def ResolverCall.cache : ResolverCall → CacheId
  | .GetTexturePal _ => .Textures
  | .GetTextureBgra _ => .Textures
  | .GetEngineTexturePal _ _ _ => .EngineTextures
  | .GetColormapTexture _ => .Colormaps
  | .GetTranslationTexture _ => .TranslationTextures

/-- The identity (address) a resolver call is keyed on. -/
def ResolverCall.key : ResolverCall → Option Nat
  | .GetTexturePal z => texKey z
  | .GetTextureBgra z => texKey z
  | .GetEngineTexturePal src _ _ => ptrKey src
  | .GetColormapTexture p => ptrKey p
  | .GetTranslationTexture p => ptrKey p

/-- Perform a resolver call. -/
def ResolverCall.run (G : Globals) (s : HardpolyRenderer) : ResolverCall → Nat × HardpolyRenderer
  | .GetTexturePal z => s.GetTexturePal z
  | .GetTextureBgra z => s.GetTextureBgra G z
  | .GetEngineTexturePal src width height => s.GetEngineTexturePal src width height
  | .GetColormapTexture p => s.GetColormapTexture G p
  | .GetTranslationTexture p => s.GetTranslationTexture p

/-- What one resolver call of a sequence did: the texture object it returned and whether it
created a texture (the heap of textures grew during the call). -/
structure Resolved where
  call : ResolverCall
  texture : Nat
  created : Bool
deriving DecidableEq, Repr

/-- Perform a sequence of resolver calls, one after the other, and record what each did. -/
def runCalls (G : Globals) : HardpolyRenderer → List ResolverCall → List Resolved
  | _, [] => []
  | s, c :: rest =>
    { call := c, texture := (c.run G s).1,
      created := decide ((c.run G s).2.gpuTextures.length ≠ s.gpuTextures.length) } ::
      runCalls G (c.run G s).2 rest

/-- The number of calls in a trace that created a texture for the identity `key` of the cache
`cache`. -/
def creations (trace : List Resolved) (cache : CacheId) (key : Option Nat) : Nat :=
  trace.countP (fun e => decide (e.call.cache = cache) && decide (e.call.key = key) && e.created)

/-! ## The public operations as a state machine -/

/-- A call of one of the public operations of the renderer. -/
inductive Op where
  | Begin
  | End
  | ClearBuffers
  | SetViewport (x y width height : Int)
  | DrawArray (drawargs : PolyDrawArgs)
  | DrawRect (args : RectDrawArgs)
deriving DecidableEq, Repr

/-- Perform one public operation. -/
def HardpolyRenderer.step (G : Globals) (s : HardpolyRenderer) : Op → HardpolyRenderer
  | .Begin => s.Begin G
  | .End => s.End G
  | .ClearBuffers => s.ClearBuffers G
  | .SetViewport x y width height => s.SetViewport G x y width height
  | .DrawArray drawargs => s.DrawArray G drawargs
  | .DrawRect args => s.DrawRect G args

/-! ## Observations on blend state -/

/-- All blend modes, in the order of their integer values. -/
def TriBlendMode.all : List TriBlendMode :=
  [.TextureOpaque, .TextureMasked, .TextureAdd, .TextureSub, .TextureRevSub, .TextureAddSrcColor,
   .TranslatedOpaque, .TranslatedMasked, .TranslatedAdd, .TranslatedSub, .TranslatedRevSub,
   .TranslatedAddSrcColor,
   .Shaded, .AddShaded, .Stencil, .AddStencil,
   .FillOpaque, .FillAdd, .FillSub, .FillRevSub, .FillAddSrcColor,
   .Skycap, .Fuzz, .FogBoundary]

/-- The slots of the frame-uniform uploads in a stretch of the log. -/
def frameUploads (log : List GPUCommand) : List Int :=
  log.filterMap fun c =>
    match c with
    | .UploadFrameUniforms slot => some slot
    | _ => none

/-- What the frame-uniform manager has done so far: the dirty flag, the current slot index and
the uploads issued. -/
def HardpolyRenderer.frameState (s : HardpolyRenderer) : Bool × Int × List Int :=
  (s.mFrameUniformsDirty, s.mCurrentFrameUniforms, frameUploads s.log)

/-- Going from `s` to `s'` either leaves the frame-uniform manager as it is, or `s` was dirty
and exactly one upload happened: to the slot after the current one, which became the current
slot, and the dirty flag was cleared. -/
def FrameStep (s s' : HardpolyRenderer) : Prop :=
  s'.frameState = s.frameState ∨
  (s.mFrameUniformsDirty = true ∧
    s'.frameState =
      (false, Int.tmod (s.mCurrentFrameUniforms + 1) 3,
        frameUploads s.log ++ [Int.tmod (s.mCurrentFrameUniforms + 1) 3]))

/-! ## The batcher on its own: frames of `GetVertices` and `Flush` steps -/

/-- A call of one of the three operations of `DrawBatcher`. -/
inductive BatcherStep where
  | NextFrame
  | GetVertices (numVertices : Int)
  | Flush
deriving DecidableEq, Repr

/-- Perform one batcher operation on the batcher of the renderer. -/
def HardpolyRenderer.batcherStep (G : Globals) (s : HardpolyRenderer) :
    BatcherStep → HardpolyRenderer
  | .NextFrame => { s with mDrawBatcher := s.mDrawBatcher.NextFrame }
  | .GetVertices numVertices => DrawBatcher.GetVertices G s numVertices
  | .Flush => DrawBatcher.Flush G s

/-- The largest number of batches used in a single frame while the steps are performed from
`s` on: `mNextBatch` counts the batches handed out in the running frame, so this is the largest
value `mNextBatch` takes in `s` and in the states after each step. -/
def batchesUsedMax (G : Globals) : HardpolyRenderer → List BatcherStep → Nat
  | s, [] => s.mDrawBatcher.mNextBatch
  | s, step :: rest =>
    max s.mDrawBatcher.mNextBatch (batchesUsedMax G (s.batcherStep G step) rest)

/-- The pool invariant: the pool index is within the current-frame pool, the pools hold live
batch objects, no batch twice, and no batch is in both pools. -/
def DrawBatcher.Pools (d : DrawBatcher) : Prop :=
  d.mNextBatch ≤ d.mCurrentFrameBatches.length ∧
  (∀ id ∈ d.mCurrentFrameBatches, id < d.heap.length) ∧
  (∀ id ∈ d.mLastFrameBatches, id < d.heap.length) ∧
  d.mCurrentFrameBatches.Nodup ∧
  d.mLastFrameBatches.Nodup ∧
  d.mCurrentFrameBatches.Disjoint d.mLastFrameBatches

/-- The renderer after a sequence of batcher steps performed on the fresh renderer. -/
def batcherAfter (G : Globals) (steps : List BatcherStep) : HardpolyRenderer :=
  steps.foldl (HardpolyRenderer.batcherStep G) HardpolyRenderer.init

/-! ## Runs that tile the written vertices -/

/-- The runs are laid out one after the other from vertex `start` on. -/
def consecutiveFrom : List DrawRun → Int → Prop
  | [], _ => True
  | run :: rest, start => run.Start = start ∧ consecutiveFrom rest (start + run.NumVertices)

/-- The sum of `NumVertices` over the runs. -/
def totalVertices (runs : List DrawRun) : Int :=
  (runs.map fun run => run.NumVertices).sum

/-- The runs tile the vertex range from `0` on: the first run starts at `0` and each following
run starts where the run before it ends. -/
def tilesFromZero (runs : List DrawRun) : Prop :=
  (∀ first ∈ runs.head?, first.Start = 0) ∧
  runs.Chain' (fun previous next => next.Start = previous.Start + previous.NumVertices)

/-- The invariant behind the tiling: the pool index and the pool entries are in range, and
either there is no current batch, nothing is mapped and the cursor is `0`, or the current batch
is a live batch object, it is the mapped one, its runs are laid out one after the other from
`0` on and the cursor is where they end. -/
def DrawBatcher.Tiled (d : DrawBatcher) : Prop :=
  d.mNextBatch ≤ d.mCurrentFrameBatches.length ∧
  (∀ id ∈ d.mCurrentFrameBatches, id < d.heap.length) ∧
  (∀ id ∈ d.mLastFrameBatches, id < d.heap.length) ∧
  match d.mCurrentBatch with
  | none => d.mVertices = none ∧ d.mNextVertex = 0
  | some b => d.mVertices = some b ∧ b < d.heap.length ∧
      consecutiveFrom (d.batchRuns b) 0 ∧ d.mNextVertex = totalVertices (d.batchRuns b)

/-! ## Sample data -/

/-- Globals with a capacity of eight vertices, a grey-ramp palette and the colour word split
as `0xAARRGGBB`. -/
def sampleGlobals : Globals :=
  { MaxVertices := 8, NUMCOLORMAPS := 1, BaseColors := fun i => ⟨i, i, i⟩,
    screenWidth := 4, screenHeight := 4,
    RPART := fun c => c / 65536 % 256, GPART := fun c => c / 256 % 256,
    BPART := fun c => c % 256, APART := fun c => c / 16777216 % 256 }

/-- An untextured triangle-list request with `n` vertices. -/
def triangles (n : Int) : PolyDrawArgs :=
  { WriteColor := true, FaceCullCCW := false, VertexCount := n, Texture := none,
    TexturePixels := none, TextureWidth := 0, TextureHeight := 0, Translation := none,
    DrawMode := .Triangles, BaseColormap := none, Light := 0, FixedLight := false,
    BlendMode := .FillOpaque, Color := 0, SrcAlpha := 0, DestAlpha := 0,
    DepthTest := false, WriteDepth := false }

/-- A rectangle request without texture. -/
def sampleRect : RectDrawArgs :=
  { X0 := 0, X1 := 1, Y0 := 0, Y1 := 1, U0 := 0, V0 := 0, U1 := 1, V1 := 1, Light := 0,
    Texture := none, BaseColormap := none }

/-- The renderer after the first `Begin`. -/
def frameStart (G : Globals) : HardpolyRenderer := HardpolyRenderer.init.Begin G

/-- The renderer after the first `Begin` and one accepted triangle. -/
def oneTriangle (G : Globals) : HardpolyRenderer := (frameStart G).DrawArray G (triangles 3)

/-- Six bytes at address `64`: a column-major image of width `2` and height `3`. -/
def samplePixels : BytePtr := { addr := 64, data := [1, 2, 3, 4, 5, 6] }

/-! ## Basic facts: what each operation leaves alone -/

section Basics

variable (G : Globals) (s : HardpolyRenderer)

@[simp] theorem emit_log (cmds : List GPUCommand) : (s.emit cmds).log = s.log ++ cmds := rfl

@[simp] theorem emit_batcher (cmds : List GPUCommand) :
    (s.emit cmds).mDrawBatcher = s.mDrawBatcher := rfl

@[simp] theorem drawCalls_nil : drawCalls [] = [] := rfl

@[simp] theorem renderBatchCalls_nil : renderBatchCalls [] = [] := rfl

@[simp] theorem drawCalls_append (l₁ l₂ : List GPUCommand) :
    drawCalls (l₁ ++ l₂) = drawCalls l₁ ++ drawCalls l₂ := by
  simp [drawCalls, List.filterMap_append]

@[simp] theorem renderBatchCalls_append (l₁ l₂ : List GPUCommand) :
    renderBatchCalls (l₁ ++ l₂) = renderBatchCalls l₁ ++ renderBatchCalls l₂ := by
  simp [renderBatchCalls, List.filterMap_append]

@[simp] theorem drawCalls_blend (f : BlendSetterFunc) (a b : Int) :
    drawCalls (f.call a b) = [] := by
  cases f <;> rfl

@[simp] theorem renderBatchCalls_blend (f : BlendSetterFunc) (a b : Int) :
    renderBatchCalls (f.call a b) = [] := by
  cases f <;> rfl

@[simp] theorem GetTranslationTexture_log (t : Option BytePtr) :
    (s.GetTranslationTexture t).2.log = s.log := by
  unfold HardpolyRenderer.GetTranslationTexture
  split <;> rfl

@[simp] theorem GetTranslationTexture_batcher (t : Option BytePtr) :
    (s.GetTranslationTexture t).2.mDrawBatcher = s.mDrawBatcher := by
  unfold HardpolyRenderer.GetTranslationTexture
  split <;> rfl

@[simp] theorem GetEngineTexturePal_log (p : Option BytePtr) (w h : Int) :
    (s.GetEngineTexturePal p w h).2.log = s.log := by
  unfold HardpolyRenderer.GetEngineTexturePal
  split
  · rfl
  · cases p <;> rfl

@[simp] theorem GetEngineTexturePal_batcher (p : Option BytePtr) (w h : Int) :
    (s.GetEngineTexturePal p w h).2.mDrawBatcher = s.mDrawBatcher := by
  unfold HardpolyRenderer.GetEngineTexturePal
  split
  · rfl
  · cases p <;> rfl

@[simp] theorem GetColormapTexture_log (p : Option BytePtr) :
    (s.GetColormapTexture G p).2.log = s.log := by
  unfold HardpolyRenderer.GetColormapTexture
  split <;> rfl

@[simp] theorem GetColormapTexture_batcher (p : Option BytePtr) :
    (s.GetColormapTexture G p).2.mDrawBatcher = s.mDrawBatcher := by
  unfold HardpolyRenderer.GetColormapTexture
  split <;> rfl

@[simp] theorem GetTexturePal_log (t : Option FTexture) :
    (s.GetTexturePal t).2.log = s.log := by
  unfold HardpolyRenderer.GetTexturePal
  split
  · rfl
  · cases t <;> rfl

@[simp] theorem GetTexturePal_batcher (t : Option FTexture) :
    (s.GetTexturePal t).2.mDrawBatcher = s.mDrawBatcher := by
  unfold HardpolyRenderer.GetTexturePal
  split
  · rfl
  · cases t <;> rfl

@[simp] theorem UpdateFrameUniforms_batcher :
    s.UpdateFrameUniforms.mDrawBatcher = s.mDrawBatcher := by
  unfold HardpolyRenderer.UpdateFrameUniforms
  split
  · dsimp only
    split <;> rfl
  · rfl

theorem Emitted.refl (l : List GPUCommand) : Emitted l l [] [] :=
  ⟨[], by simp, rfl, rfl⟩

theorem Emitted.trans {l₁ l₂ l₃ : List GPUCommand} {d₁ d₂ : List (GPUDrawMode × Int × Int)}
    {b₁ b₂ : List Nat} (h₁ : Emitted l₁ l₂ d₁ b₁) (h₂ : Emitted l₂ l₃ d₂ b₂) :
    Emitted l₁ l₃ (d₁ ++ d₂) (b₁ ++ b₂) := by
  obtain ⟨c₁, e₁, hd₁, hb₁⟩ := h₁
  obtain ⟨c₂, e₂, hd₂, hb₂⟩ := h₂
  exact ⟨c₁ ++ c₂, by rw [e₂, e₁, List.append_assoc], by simp [hd₁, hd₂], by simp [hb₁, hb₂]⟩

theorem Emitted.emit (cmds : List GPUCommand) :
    Emitted s.log (s.emit cmds).log (drawCalls cmds) (renderBatchCalls cmds) :=
  ⟨cmds, rfl, rfl, rfl⟩

theorem Emitted.congr {l l' : List GPUCommand} {d d' : List (GPUDrawMode × Int × Int)}
    {b b' : List Nat} (h : Emitted l l' d b) (hd : d = d') (hb : b = b') : Emitted l l' d' b' := by
  subst hd hb
  exact h

theorem Emitted.drawCalls_eq {l l' : List GPUCommand} {d : List (GPUDrawMode × Int × Int)}
    {b : List Nat} (h : Emitted l l' d b) : drawCalls l' = drawCalls l ++ d := by
  obtain ⟨c, e, hd, -⟩ := h
  rw [e, drawCalls_append, hd]

theorem Emitted.renderBatchCalls_eq {l l' : List GPUCommand}
    {d : List (GPUDrawMode × Int × Int)} {b : List Nat} (h : Emitted l l' d b) :
    renderBatchCalls l' = renderBatchCalls l ++ b := by
  obtain ⟨c, e, -, hb⟩ := h
  rw [e, renderBatchCalls_append, hb]

theorem UpdateFrameUniforms_log :
    Emitted s.log s.UpdateFrameUniforms.log [] [] := by
  unfold HardpolyRenderer.UpdateFrameUniforms
  split
  · refine ⟨[.UploadFrameUniforms (Int.tmod (s.mCurrentFrameUniforms + 1) 3)], ?_, rfl, rfl⟩
    dsimp only
    split <;> rfl
  · exact Emitted.refl _

@[simp] theorem RenderRun_batcher (run : DrawRun) :
    (s.RenderRun G run).mDrawBatcher = s.mDrawBatcher := by
  unfold HardpolyRenderer.RenderRun
  cases run.Texture <;> cases run.Pixels <;> cases run.Translation <;> simp

theorem drawCalls_cons (c : GPUCommand) (l : List GPUCommand) :
    drawCalls (c :: l) =
      (match c with
        | .Draw mode start count => [(mode, start, count)]
        | _ => []) ++ drawCalls l := by
  cases c <;> rfl

theorem renderBatchCalls_cons (c : GPUCommand) (l : List GPUCommand) :
    renderBatchCalls (c :: l) =
      (match c with
        | .SetVertexArray (some (.Batch b)) => [b]
        | _ => []) ++ renderBatchCalls l := by
  cases c with
  | SetVertexArray va =>
    cases va with
    | none => rfl
    | some v => cases v <;> rfl
  | _ => rfl

theorem RenderRun_log (run : DrawRun) :
    Emitted s.log (s.RenderRun G run).log [runDraw run] [] := by
  unfold HardpolyRenderer.RenderRun Emitted
  cases run.Texture <;> cases run.Pixels <;> cases run.Translation <;>
    simp only [emit_log, GetTexturePal_log, GetEngineTexturePal_log, GetColormapTexture_log,
      GetTranslationTexture_log, List.append_assoc] <;>
    refine ⟨_, rfl, ?_, ?_⟩ <;>
    simp [drawCalls_cons, renderBatchCalls_cons, runDraw]

end Basics

/-! ## Dispatching a batch -/

section Dispatch

variable (G : Globals)

theorem foldl_RenderRun_batcher (runs : List DrawRun) (s : HardpolyRenderer) :
    (runs.foldl (HardpolyRenderer.RenderRun G) s).mDrawBatcher = s.mDrawBatcher := by
  induction runs generalizing s with
  | nil => rfl
  | cons run rest ih => rw [List.foldl_cons, ih, RenderRun_batcher]

theorem foldl_RenderRun_log (runs : List DrawRun) (s : HardpolyRenderer) :
    Emitted s.log (runs.foldl (HardpolyRenderer.RenderRun G) s).log (runs.map runDraw) [] := by
  induction runs generalizing s with
  | nil => exact Emitted.refl _
  | cons run rest ih =>
    exact ((RenderRun_log G s run).trans (ih (s.RenderRun G run))).congr (by simp) (by simp)

@[simp] theorem RenderBatch_batcher (s : HardpolyRenderer) (batch : Nat) :
    (s.RenderBatch G batch).mDrawBatcher = s.mDrawBatcher := by
  unfold HardpolyRenderer.RenderBatch
  simp [foldl_RenderRun_batcher]

/-- The calls `RenderBatch` adds to the log: the vertex array of the batch is bound once, and
the draw calls are those of the runs of the batch, in the order of the run list. -/
theorem RenderBatch_log (s : HardpolyRenderer) (batch : Nat) :
    Emitted s.log (s.RenderBatch G batch).log
      ((s.mDrawBatcher.batchRuns batch).map runDraw) [batch] := by
  have h₀ := UpdateFrameUniforms_log s
  unfold HardpolyRenderer.RenderBatch
  dsimp only
  generalize hs₁ : ({ s.UpdateFrameUniforms with mFaceUniforms := true } : HardpolyRenderer) = s₁
  have hb₁ : s₁.mDrawBatcher = s.mDrawBatcher := by subst hs₁; simp
  have hl₁ : Emitted s.log s₁.log [] [] := by subst hs₁; exact h₀
  have h₁ := Emitted.emit s₁
    [.SetVertexArray (some (.Batch batch)), .SetProgram (some .OpaqueProgram),
     .SetUniforms 0 (some (.Frame s.UpdateFrameUniforms.mCurrentFrameUniforms)),
     .SetUniforms 1 (some .Face),
     .SetSampler 0 (some .Nearest), .SetSampler 1 (some .Nearest), .SetSampler 2 (some .Nearest)]
  generalize hs₂ : s₁.emit _ = s₂ at h₁ ⊢
  have hb₂ : s₂.mDrawBatcher = s.mDrawBatcher := by subst hs₂; simpa using hb₁
  have h₂ := foldl_RenderRun_log G (s₂.mDrawBatcher.batchRuns batch) s₂
  have h₃ := Emitted.emit (List.foldl (HardpolyRenderer.RenderRun G) s₂
      (s₂.mDrawBatcher.batchRuns batch))
    [.SetTexture 0 none, .SetTexture 1 none, .SetTexture 2 none,
     .SetSampler 0 none, .SetSampler 1 none, .SetSampler 2 none,
     .SetUniforms 0 none, .SetUniforms 1 none, .SetVertexArray none, .SetProgram none]
  refine (((hl₁.trans h₁).trans h₂).trans h₃).congr ?_ ?_
  · simp [drawCalls_cons, hb₂]
  · simp [renderBatchCalls_cons]

@[simp] theorem unmapVertices_batcher (s : HardpolyRenderer) :
    (DrawBatcher.unmapVertices s).mDrawBatcher = { s.mDrawBatcher with mVertices := none } := by
  unfold DrawBatcher.unmapVertices
  cases hv : s.mDrawBatcher.mVertices with
  | none => simp [← hv]
  | some v => cases hc : s.mDrawBatcher.mCurrentBatch <;> simp

theorem unmapVertices_log (s : HardpolyRenderer) :
    Emitted s.log (DrawBatcher.unmapVertices s).log [] [] := by
  unfold DrawBatcher.unmapVertices
  cases hv : s.mDrawBatcher.mVertices with
  | none => exact Emitted.refl _
  | some v =>
    cases hc : s.mDrawBatcher.mCurrentBatch with
    | none => exact Emitted.refl _
    | some b => exact Emitted.emit s [.Unmap b]

@[simp] theorem Flush_batcher (s : HardpolyRenderer) :
    (DrawBatcher.Flush G s).mDrawBatcher =
      { s.mDrawBatcher with mVertices := none, mNextVertex := 0, mCurrentBatch := none } := by
  unfold DrawBatcher.Flush
  dsimp only
  split
  · split <;> simp
  · simp

/-- The calls `Flush` adds to the log: the draw calls are exactly those of the pending runs, in
append order, and `RenderBatch` is entered once when there are pending runs and not otherwise. -/
theorem Flush_log (s : HardpolyRenderer) :
    Emitted s.log (DrawBatcher.Flush G s).log (s.mDrawBatcher.pending.map runDraw)
      (match s.mDrawBatcher.mCurrentBatch with
        | some b => if s.mDrawBatcher.pending = [] then [] else [b]
        | none => []) := by
  have h₁ := unmapVertices_log s
  have hr : ∀ b, (DrawBatcher.unmapVertices s).mDrawBatcher.batchRuns b =
      s.mDrawBatcher.batchRuns b := by
    intro b
    simp [DrawBatcher.batchRuns]
  have hc₁ : (DrawBatcher.unmapVertices s).mDrawBatcher.mCurrentBatch =
      s.mDrawBatcher.mCurrentBatch := by simp
  unfold DrawBatcher.Flush DrawBatcher.pending
  dsimp only
  generalize DrawBatcher.unmapVertices s = s₁ at h₁ hr hc₁ ⊢
  rw [hc₁]
  cases hc : s.mDrawBatcher.mCurrentBatch with
  | none => simpa using h₁
  | some b =>
    by_cases he : s.mDrawBatcher.batchRuns b = []
    · simpa [hr, he] using h₁
    · have h₂ := RenderBatch_log G s₁ b
      rw [hr] at h₂
      simpa [hr, he] using h₁.trans h₂

end Dispatch

/-! ## Taking a batch from the pool -/

section Acquire

theorem batchRuns_of_getElem? {d : DrawBatcher} {b : Nat} {x : DrawBatch}
    (h : d.heap[b]? = some x) : d.batchRuns b = x.DrawRuns := by
  simp [DrawBatcher.batchRuns, h]

/-- What `acquire` does on a batcher whose pool index is in range and whose pool entries are
live batch objects: slot `mNextBatch` of the (possibly grown) pool becomes the current batch,
with an empty run list and its buffer mapped. -/
theorem acquire_spec (h : HardpolyRenderer)
    (hle : h.mDrawBatcher.mNextBatch ≤ h.mDrawBatcher.mCurrentFrameBatches.length)
    (hvalid : ∀ id ∈ h.mDrawBatcher.mCurrentFrameBatches, id < h.mDrawBatcher.heap.length) :
    ∃ b cur heap,
      (DrawBatcher.acquire h).mDrawBatcher =
        { h.mDrawBatcher with
          heap := heap, mVertices := some b, mCurrentBatch := some b,
          mCurrentFrameBatches := cur, mNextBatch := h.mDrawBatcher.mNextBatch + 1 } ∧
      (DrawBatcher.acquire h).log = h.log ++ [.MapWriteOnly b] ∧
      cur[h.mDrawBatcher.mNextBatch]? = some b ∧
      heap[b]? = some { DrawRuns := [], Vertices := true } ∧
      h.mDrawBatcher.heap.length ≤ heap.length ∧
      (cur = h.mDrawBatcher.mCurrentFrameBatches ∨
        (cur = h.mDrawBatcher.mCurrentFrameBatches ++ [h.mDrawBatcher.heap.length] ∧
          h.mDrawBatcher.heap.length < heap.length)) := by
  by_cases hfull : h.mDrawBatcher.mNextBatch = h.mDrawBatcher.mCurrentFrameBatches.length
  · refine ⟨h.mDrawBatcher.heap.length,
      h.mDrawBatcher.mCurrentFrameBatches ++ [h.mDrawBatcher.heap.length],
      (h.mDrawBatcher.heap ++ [({ DrawRuns := [], Vertices := false } : DrawBatch)]).modify
        (fun _ => { DrawRuns := [], Vertices := true }) h.mDrawBatcher.heap.length,
      ?_, ?_, ?_, ?_, ?_, ?_⟩
    · simp [DrawBatcher.acquire, hfull]
    · simp [DrawBatcher.acquire, hfull]
    · simp [hfull]
    · simp [List.getElem?_modify]
    · simp [List.length_modify]
    · right
      simp [List.length_modify]
  · have hlt : h.mDrawBatcher.mNextBatch < h.mDrawBatcher.mCurrentFrameBatches.length := by omega
    have hget : h.mDrawBatcher.mCurrentFrameBatches[h.mDrawBatcher.mNextBatch]? =
        some (h.mDrawBatcher.mCurrentFrameBatches[h.mDrawBatcher.mNextBatch]) :=
      List.getElem?_eq_getElem hlt
    have hb : h.mDrawBatcher.mCurrentFrameBatches[h.mDrawBatcher.mNextBatch] <
        h.mDrawBatcher.heap.length := hvalid _ (List.getElem_mem _)
    refine ⟨h.mDrawBatcher.mCurrentFrameBatches[h.mDrawBatcher.mNextBatch],
      h.mDrawBatcher.mCurrentFrameBatches,
      h.mDrawBatcher.heap.modify (fun _ => { DrawRuns := [], Vertices := true })
        (h.mDrawBatcher.mCurrentFrameBatches[h.mDrawBatcher.mNextBatch]),
      ?_, ?_, hget, ?_, ?_, Or.inl rfl⟩
    · simp [DrawBatcher.acquire, hfull, hget]
    · simp [DrawBatcher.acquire, hfull, hget]
    · simp [List.getElem?_modify, List.getElem?_eq_getElem hb]
    · simp [List.length_modify]

theorem getElem?_inj_of_nodup {l : List Nat} (hl : l.Nodup) {i j x : Nat}
    (hi : l[i]? = some x) (hj : l[j]? = some x) : i = j := by
  obtain ⟨hi', ei⟩ := List.getElem?_eq_some.mp hi
  obtain ⟨hj', ej⟩ := List.getElem?_eq_some.mp hj
  exact (List.Nodup.getElem_inj_iff hl).mp (ei.trans ej.symm)

theorem GetVertices_fit_mapped (G : Globals) (s : HardpolyRenderer) (c : Int) {v : Nat}
    (hfit : s.mDrawBatcher.mNextVertex + c ≤ G.MaxVertices)
    (hv : s.mDrawBatcher.mVertices = some v) : DrawBatcher.GetVertices G s c = s := by
  unfold DrawBatcher.GetVertices
  rw [if_neg (by omega)]
  simp [hv]

theorem GetVertices_fit_unmapped (G : Globals) (s : HardpolyRenderer) (c : Int)
    (hfit : s.mDrawBatcher.mNextVertex + c ≤ G.MaxVertices)
    (hv : s.mDrawBatcher.mVertices = none) :
    DrawBatcher.GetVertices G s c = DrawBatcher.acquire s := by
  unfold DrawBatcher.GetVertices
  rw [if_neg (by omega)]
  simp [hv]

theorem GetVertices_overflow (G : Globals) (s : HardpolyRenderer) (c : Int)
    (hover : G.MaxVertices < s.mDrawBatcher.mNextVertex + c) :
    DrawBatcher.GetVertices G s c = DrawBatcher.acquire (DrawBatcher.Flush G s) := by
  unfold DrawBatcher.GetVertices
  rw [if_pos (by omega)]
  simp

theorem DrawArray_accepted (G : Globals) (s : HardpolyRenderer) (a : PolyDrawArgs)
    (hacc : accepted a = true) :
    s.DrawArray G a =
      { DrawBatcher.GetVertices G s a.VertexCount with
        mDrawBatcher :=
          ({ (DrawBatcher.GetVertices G s a.VertexCount).mDrawBatcher with
              mNextVertex := (DrawBatcher.GetVertices G s a.VertexCount).mDrawBatcher.mNextVertex
                + a.VertexCount }).pushRun
            (makeRun a (DrawBatcher.GetVertices G s a.VertexCount).mDrawBatcher.mNextVertex) } := by
  simp only [accepted, Bool.and_eq_true, decide_eq_true_eq] at hacc
  unfold HardpolyRenderer.DrawArray
  simp only [hacc.1, Bool.not_true, Bool.false_eq_true, if_false, if_neg (not_lt.mpr hacc.2)]
  rfl

theorem DrawArray_rejected (G : Globals) (s : HardpolyRenderer) (a : PolyDrawArgs)
    (hrej : accepted a = false) : s.DrawArray G a = s := by
  unfold HardpolyRenderer.DrawArray
  cases hw : a.WriteColor
  · simp
  · have : a.VertexCount < 3 := by
      simp [accepted, hw] at hrej
      exact hrej
    simp [this]

/-- Recording a run in a batch freshly taken from the pool, starting from a well-formed
batcher without a current batch. -/
theorem push_after_acquire (h : HardpolyRenderer) (run : DrawRun) (c : Int)
    (hwf : h.mDrawBatcher.WF) (hnone : h.mDrawBatcher.mCurrentBatch = none) :
    ∃ b,
      let r : HardpolyRenderer :=
        { DrawBatcher.acquire h with
          mDrawBatcher :=
            ({ (DrawBatcher.acquire h).mDrawBatcher with
                mNextVertex := (DrawBatcher.acquire h).mDrawBatcher.mNextVertex + c }).pushRun run }
      r.mDrawBatcher.WF ∧
      r.mDrawBatcher.mCurrentBatch = some b ∧
      r.mDrawBatcher.batchRuns b = [run] ∧
      r.mDrawBatcher.mNextVertex = c ∧
      r.mDrawBatcher.mCurrentFrameBatches[h.mDrawBatcher.mNextBatch]? = some b ∧
      (∀ i, i < h.mDrawBatcher.mNextBatch →
        r.mDrawBatcher.mCurrentFrameBatches[i]? = h.mDrawBatcher.mCurrentFrameBatches[i]?) ∧
      r.log = h.log ++ [.MapWriteOnly b] := by
  obtain ⟨hle, hvalid, hvalidL, hnd, hndL, hcur⟩ := hwf
  simp only [DrawBatcher.currentOK, hnone] at hcur
  obtain ⟨b, cur, heap, hd, hlog, hslot, hheap, hlen, hcases⟩ := acquire_spec h hle hvalid
  refine ⟨b, ?_⟩
  have hblt : b < heap.length := by
    obtain ⟨hb, -⟩ := List.getElem?_eq_some.mp hheap
    exact hb
  have hcurlen : h.mDrawBatcher.mNextBatch < cur.length := by
    obtain ⟨hb, -⟩ := List.getElem?_eq_some.mp hslot
    exact hb
  have hcurvalid : ∀ id ∈ cur, id < heap.length := by
    intro id hid
    rcases hcases with rfl | ⟨rfl, hlt⟩
    · exact lt_of_lt_of_le (hvalid id hid) hlen
    · rcases List.mem_append.mp hid with h1 | h1
      · exact lt_of_lt_of_le (hvalid id h1) hlen
      · simp at h1
        omega
  have hcurnd : cur.Nodup := by
    rcases hcases with rfl | ⟨rfl, -⟩
    · exact hnd
    · refine List.nodup_append.mpr ⟨hnd, List.nodup_singleton _, ?_⟩
      intro x hx hx'
      simp at hx'
      have := hvalid x hx
      omega
  have hpre : ∀ i, i < h.mDrawBatcher.mNextBatch →
      cur[i]? = h.mDrawBatcher.mCurrentFrameBatches[i]? := by
    intro i hi
    rcases hcases with rfl | ⟨rfl, -⟩
    · rfl
    · exact List.getElem?_append_left (by omega)
  simp only [hd, DrawBatcher.pushRun, hlog]
  refine ⟨⟨?_, ?_, ?_, hcurnd, hndL, ?_⟩, trivial, ?_, ?_, hslot, hpre, trivial⟩
  · simpa using hcurlen
  · simpa [List.length_modify] using hcurvalid
  · intro id hid
    have := hvalidL id hid
    simp only [List.length_modify]
    omega
  · simp [DrawBatcher.currentOK, hslot]
  · simp [DrawBatcher.batchRuns, List.getElem?_modify, hheap]
  · simp [hcur.2]

/-- Recording a run in the current batch of a well-formed batcher. -/
theorem push_current (s : HardpolyRenderer) (run : DrawRun) (c : Int) {b : Nat}
    (hwf : s.mDrawBatcher.WF) (hsome : s.mDrawBatcher.mCurrentBatch = some b) :
    let r : HardpolyRenderer :=
      { s with
        mDrawBatcher :=
          ({ s.mDrawBatcher with mNextVertex := s.mDrawBatcher.mNextVertex + c }).pushRun run }
    r.mDrawBatcher.WF ∧
    r.mDrawBatcher.mCurrentBatch = some b ∧
    r.mDrawBatcher.batchRuns b = s.mDrawBatcher.batchRuns b ++ [run] ∧
    r.mDrawBatcher.mNextVertex = s.mDrawBatcher.mNextVertex + c ∧
    r.log = s.log := by
  obtain ⟨hle, hvalid, hvalidL, hnd, hndL, hcur⟩ := hwf
  simp only [DrawBatcher.currentOK, hsome] at hcur
  have hb : b < s.mDrawBatcher.heap.length := hvalid b (List.getElem?_mem hcur.2.2)
  simp only [DrawBatcher.pushRun, hsome]
  refine ⟨⟨hle, ?_, ?_, hnd, hndL, ?_⟩, trivial, ?_, trivial, trivial⟩
  · simpa [List.length_modify] using hvalid
  · simpa [List.length_modify] using hvalidL
  · simp [DrawBatcher.currentOK, hsome, hcur]
  · simp [DrawBatcher.batchRuns, List.getElem?_modify, List.getElem?_eq_getElem hb]

@[simp] theorem acquire_mNextVertex (h : HardpolyRenderer) :
    (DrawBatcher.acquire h).mDrawBatcher.mNextVertex = h.mDrawBatcher.mNextVertex := by
  unfold DrawBatcher.acquire
  by_cases hfull : h.mDrawBatcher.mNextBatch = h.mDrawBatcher.mCurrentFrameBatches.length
  · simp only [hfull, if_true]
    split <;> rfl
  · simp only [hfull, if_false]
    split <;> rfl

theorem WF_of_Flush (G : Globals) (s : HardpolyRenderer) (hwf : s.mDrawBatcher.WF) :
    (DrawBatcher.Flush G s).mDrawBatcher.WF := by
  obtain ⟨hle, hvalid, hvalidL, hnd, hndL, -⟩ := hwf
  rw [Flush_batcher]
  exact ⟨hle, hvalid, hvalidL, hnd, hndL, by simp [DrawBatcher.currentOK]⟩

/-- An accepted request that fits behind the write cursor: nothing is dispatched and the run
is appended to the current batch at the cursor (a batch is first taken from the pool when there
is no current one). -/
theorem DrawArray_fits (G : Globals) (s : HardpolyRenderer) (a : PolyDrawArgs)
    (hwf : s.mDrawBatcher.WF) (hacc : accepted a = true)
    (hfit : s.mDrawBatcher.mNextVertex + a.VertexCount ≤ G.MaxVertices) :
    (s.DrawArray G a).mDrawBatcher.WF ∧
    Emitted s.log (s.DrawArray G a).log [] [] ∧
    (s.DrawArray G a).mDrawBatcher.mNextVertex = s.mDrawBatcher.mNextVertex + a.VertexCount ∧
    ∃ b, (s.DrawArray G a).mDrawBatcher.mCurrentBatch = some b ∧
      (s.DrawArray G a).mDrawBatcher.batchRuns b =
        s.mDrawBatcher.pending ++ [makeRun a s.mDrawBatcher.mNextVertex] ∧
      ∀ b₀, s.mDrawBatcher.mCurrentBatch = some b₀ → b = b₀ := by
  rw [DrawArray_accepted G s a hacc]
  cases hc : s.mDrawBatcher.mCurrentBatch with
  | none =>
    have hcur := hwf.2.2.2.2.2
    simp only [DrawBatcher.currentOK, hc] at hcur
    rw [GetVertices_fit_unmapped G s _ hfit hcur.1]
    obtain ⟨b, h1, h2, h3, h4, -, -, h7⟩ :=
      push_after_acquire s (makeRun a (DrawBatcher.acquire s).mDrawBatcher.mNextVertex)
        a.VertexCount hwf hc
    refine ⟨h1, ⟨[.MapWriteOnly b], h7, rfl, rfl⟩, ?_, b, h2, ?_, ?_⟩
    · rw [h4, hcur.2]; simp
    · rw [h3]; simp [DrawBatcher.pending, hc, hcur.2]
    · intro b₀ hb₀; cases hb₀
  | some b₀ =>
    have hcur := hwf.2.2.2.2.2
    simp only [DrawBatcher.currentOK, hc] at hcur
    rw [GetVertices_fit_mapped G s _ hfit hcur.1]
    obtain ⟨h1, h2, h3, h4, h5⟩ :=
      push_current s (makeRun a s.mDrawBatcher.mNextVertex) a.VertexCount hwf hc
    refine ⟨h1, ?_, h4, b₀, h2, ?_, ?_⟩
    · rw [h5]; exact Emitted.refl _
    · rw [h3]; simp [DrawBatcher.pending, hc]
    · intro b₁ hb₁; cases hb₁; rfl

/-- An accepted request that does not fit behind the write cursor: the pending runs are
dispatched first, then the run is recorded at vertex `0` as the only run of the next pool slot,
which is not the batch that was current before. -/
theorem DrawArray_overflows (G : Globals) (s : HardpolyRenderer) (a : PolyDrawArgs)
    (hwf : s.mDrawBatcher.WF) (hacc : accepted a = true)
    (hover : G.MaxVertices < s.mDrawBatcher.mNextVertex + a.VertexCount) :
    (s.DrawArray G a).mDrawBatcher.WF ∧
    Emitted s.log (s.DrawArray G a).log (s.mDrawBatcher.pending.map runDraw)
      (match s.mDrawBatcher.mCurrentBatch with
        | some b => if s.mDrawBatcher.pending = [] then [] else [b]
        | none => []) ∧
    (s.DrawArray G a).mDrawBatcher.mNextVertex = a.VertexCount ∧
    ∃ b, (s.DrawArray G a).mDrawBatcher.mCurrentBatch = some b ∧
      (s.DrawArray G a).mDrawBatcher.batchRuns b = [makeRun a 0] ∧
      s.mDrawBatcher.mCurrentBatch ≠ some b ∧
      (s.DrawArray G a).mDrawBatcher.mCurrentFrameBatches[s.mDrawBatcher.mNextBatch]? =
        some b := by
  rw [DrawArray_accepted G s a hacc, GetVertices_overflow G s _ hover]
  have hwfF := WF_of_Flush G s hwf
  have hnone : (DrawBatcher.Flush G s).mDrawBatcher.mCurrentBatch = none := by simp
  have hnb : (DrawBatcher.Flush G s).mDrawBatcher.mNextBatch = s.mDrawBatcher.mNextBatch := by
    simp
  have hcf : (DrawBatcher.Flush G s).mDrawBatcher.mCurrentFrameBatches =
      s.mDrawBatcher.mCurrentFrameBatches := by simp
  have hstart : (DrawBatcher.acquire (DrawBatcher.Flush G s)).mDrawBatcher.mNextVertex = 0 := by
    simp
  obtain ⟨b, h1, h2, h3, h4, h5, h6, h7⟩ :=
    push_after_acquire (DrawBatcher.Flush G s)
      (makeRun a (DrawBatcher.acquire (DrawBatcher.Flush G s)).mDrawBatcher.mNextVertex)
      a.VertexCount hwfF hnone
  rw [hnb] at h5 h6
  rw [hcf] at h6
  refine ⟨h1, ?_, h4, b, h2, ?_, ?_, h5⟩
  · have hE : Emitted (DrawBatcher.Flush G s).log
        ((DrawBatcher.Flush G s).log ++ [.MapWriteOnly b]) [] [] := ⟨_, rfl, rfl, rfl⟩
    rw [h7]
    exact ((Flush_log G s).trans hE).congr (by simp) (by simp)
  · rw [h3, hstart]
  · intro hb
    have hcur := hwf.2.2.2.2.2
    simp only [DrawBatcher.currentOK, hb] at hcur
    have h8 := h6 (s.mDrawBatcher.mNextBatch - 1) (by omega)
    rw [hcur.2.2] at h8
    have := getElem?_inj_of_nodup h1.2.2.2.1 h8 h5
    omega

end Acquire

/-! ## Sequences of draw requests -/

section Sequences

theorem acceptedVertices_nonneg (calls : List PolyDrawArgs) : 0 ≤ acceptedVertices calls := by
  induction calls with
  | nil => simp [acceptedVertices]
  | cons a rest ih =>
    unfold acceptedVertices
    by_cases h : accepted a = true
    · have h' := h
      simp only [accepted, Bool.and_eq_true, decide_eq_true_eq] at h'
      simp only [h, if_true]
      omega
    · simp only [h]
      simpa using ih

theorem pending_of_current {d : DrawBatcher} {b : Nat} (h : d.mCurrentBatch = some b) :
    d.pending = d.batchRuns b := by
  simp [DrawBatcher.pending, h]

/-- A run of requests that fits behind the write cursor: nothing is dispatched and the
accepted requests are laid out, in order, behind the runs already pending. -/
theorem foldl_DrawArray_fits (G : Globals) (calls : List PolyDrawArgs) (s : HardpolyRenderer)
    (hwf : s.mDrawBatcher.WF)
    (hfit : s.mDrawBatcher.mNextVertex + acceptedVertices calls ≤ G.MaxVertices) :
    (calls.foldl (HardpolyRenderer.DrawArray G) s).mDrawBatcher.WF ∧
    Emitted s.log (calls.foldl (HardpolyRenderer.DrawArray G) s).log [] [] ∧
    (calls.foldl (HardpolyRenderer.DrawArray G) s).mDrawBatcher.pending =
      s.mDrawBatcher.pending ++ submittedRuns calls s.mDrawBatcher.mNextVertex := by
  induction calls generalizing s with
  | nil => exact ⟨hwf, Emitted.refl _, by simp [submittedRuns]⟩
  | cons a rest ih =>
    rw [List.foldl_cons]
    have hnn := acceptedVertices_nonneg rest
    by_cases hacc : accepted a = true
    · simp only [acceptedVertices, hacc, if_true] at hfit
      obtain ⟨h1, h2, h3, b, h4, h5, -⟩ := DrawArray_fits G s a hwf hacc (by omega)
      obtain ⟨i1, i2, i3⟩ := ih (s.DrawArray G a) h1 (by rw [h3]; omega)
      refine ⟨i1, (h2.trans i2).congr rfl rfl, ?_⟩
      rw [i3, pending_of_current h4, h5, h3]
      simp [submittedRuns, hacc]
    · have hrej : accepted a = false := by simpa using hacc
      simp only [acceptedVertices, hrej] at hfit
      rw [DrawArray_rejected G s a hrej]
      obtain ⟨i1, i2, i3⟩ := ih s hwf (by simpa using hfit)
      exact ⟨i1, i2, by rw [i3]; simp [submittedRuns, hrej]⟩

@[simp] theorem SetupFramebuffer_batcher (G : Globals) (s : HardpolyRenderer) :
    (s.SetupFramebuffer G).mDrawBatcher = s.mDrawBatcher := by
  unfold HardpolyRenderer.SetupFramebuffer
  dsimp only
  split <;> rfl

@[simp] theorem Begin_batcher (G : Globals) (s : HardpolyRenderer) :
    (s.Begin G).mDrawBatcher = s.mDrawBatcher.NextFrame := by
  unfold HardpolyRenderer.Begin HardpolyRenderer.CreateSamplers HardpolyRenderer.CompileShaders
  simp

theorem WF_frameStart (G : Globals) : (frameStart G).mDrawBatcher.WF := by
  rw [frameStart, Begin_batcher]
  decide

theorem frameStart_current (G : Globals) : (frameStart G).mDrawBatcher.mCurrentBatch = none := by
  rw [frameStart, Begin_batcher]
  rfl

end Sequences

/-! ## Rectangles -/

@[simp] theorem DrawRect_batcher (G : Globals) (s : HardpolyRenderer) (args : RectDrawArgs) :
    (s.DrawRect G args).mDrawBatcher = s.mDrawBatcher := by
  unfold HardpolyRenderer.DrawRect
  simp

theorem DrawRect_log (G : Globals) (s : HardpolyRenderer) (args : RectDrawArgs) :
    Emitted s.log (s.DrawRect G args).log [(.TriangleStrip, 0, 4)] [] := by
  obtain ⟨c, h, d, r⟩ := UpdateFrameUniforms_log s
  unfold HardpolyRenderer.DrawRect Emitted
  simp only [emit_log, GetTexturePal_log, GetColormapTexture_log, h, List.append_assoc]
  refine ⟨_, rfl, ?_, ?_⟩
  · simp [drawCalls_cons, d]
  · simp [renderBatchCalls_cons, r]

/-! ## Well-formedness is an invariant -/

section Invariant

theorem WF_DrawArray (G : Globals) (s : HardpolyRenderer) (a : PolyDrawArgs)
    (hwf : s.mDrawBatcher.WF) : (s.DrawArray G a).mDrawBatcher.WF := by
  by_cases hacc : accepted a = true
  · by_cases hfit : s.mDrawBatcher.mNextVertex + a.VertexCount ≤ G.MaxVertices
    · exact (DrawArray_fits G s a hwf hacc hfit).1
    · exact (DrawArray_overflows G s a hwf hacc (by omega)).1
  · rw [DrawArray_rejected G s a (by simpa using hacc)]
    exact hwf

theorem WF_Begin (G : Globals) (s : HardpolyRenderer) (hwf : s.mDrawBatcher.WF)
    (hidle : s.mDrawBatcher.mCurrentBatch = none) : (s.Begin G).mDrawBatcher.WF := by
  obtain ⟨-, hvalid, hvalidL, hnd, hndL, hcur⟩ := hwf
  simp only [DrawBatcher.currentOK, hidle] at hcur
  rw [Begin_batcher]
  exact ⟨Nat.zero_le _, hvalidL, hvalid, hndL, hnd,
    by simp [DrawBatcher.currentOK, DrawBatcher.NextFrame, hidle, hcur]⟩

/-- Well-formedness of the batcher is kept by every public operation, provided `Begin` is not
called while a batch is open (that is, every frame is closed by `End`, or flushed, before the
next `Begin`). -/
theorem WF_step (G : Globals) (s : HardpolyRenderer) (op : Op) (hwf : s.mDrawBatcher.WF)
    (hbegin : op = .Begin → s.mDrawBatcher.mCurrentBatch = none) :
    (s.step G op).mDrawBatcher.WF := by
  cases op with
  | Begin => exact WF_Begin G s hwf (hbegin rfl)
  | End =>
    have := WF_of_Flush G s hwf
    simpa [HardpolyRenderer.step, HardpolyRenderer.End] using this
  | ClearBuffers =>
    have := WF_of_Flush G s hwf
    simpa [HardpolyRenderer.step, HardpolyRenderer.ClearBuffers] using this
  | SetViewport x y w h =>
    have := WF_of_Flush G s hwf
    simpa [HardpolyRenderer.step, HardpolyRenderer.SetViewport] using this
  | DrawArray a => exact WF_DrawArray G s a hwf
  | DrawRect args =>
    simpa [HardpolyRenderer.step] using hwf

theorem WF_init : HardpolyRenderer.init.mDrawBatcher.WF := by decide

end Invariant

/-! ## The claims about batching -/

section BatchingClaims

/-- C1 (as amended): for every sequence of `DrawArray` calls submitted to an empty, well-formed
batcher whose accepted requests (colour write on, at least three vertices) have a combined
vertex count of at most `MaxVertices`: no draw call is issued and `RenderBatch` is not entered
during the calls; afterwards the pending runs are exactly the runs of the accepted requests in
submission order; and the following `Flush` issues exactly the draw calls of these runs, in
this order, entering `RenderBatch` once, for the current batch, when at least one request was
accepted and not at all when none was. -/
theorem C1_one_dispatch_within_capacity (G : Globals) (s : HardpolyRenderer)
    (calls : List PolyDrawArgs)
    (hwf : s.mDrawBatcher.WF) (hempty : s.mDrawBatcher.mCurrentBatch = none)
    (hcap : acceptedVertices calls ≤ G.MaxVertices) :
    Emitted s.log (calls.foldl (HardpolyRenderer.DrawArray G) s).log [] [] ∧
    (calls.foldl (HardpolyRenderer.DrawArray G) s).mDrawBatcher.pending = submittedRuns calls 0 ∧
    ∃ batches,
      Emitted (calls.foldl (HardpolyRenderer.DrawArray G) s).log
        (DrawBatcher.Flush G (calls.foldl (HardpolyRenderer.DrawArray G) s)).log
        ((submittedRuns calls 0).map runDraw) batches ∧
      batches.length = (if submittedRuns calls 0 = [] then 0 else 1) ∧
      ∀ b ∈ batches,
        (calls.foldl (HardpolyRenderer.DrawArray G) s).mDrawBatcher.mCurrentBatch = some b ∧
        (calls.foldl (HardpolyRenderer.DrawArray G) s).mDrawBatcher.batchRuns b =
          submittedRuns calls 0 := by
  have hcur := hwf.2.2.2.2.2
  simp only [DrawBatcher.currentOK, hempty] at hcur
  obtain ⟨-, h2, h3⟩ := foldl_DrawArray_fits G calls s hwf (by rw [hcur.2]; simpa using hcap)
  have hp : s.mDrawBatcher.pending = [] := by simp [DrawBatcher.pending, hempty]
  rw [hp, hcur.2, List.nil_append] at h3
  refine ⟨h2, h3, ?_⟩
  have hF := Flush_log G (calls.foldl (HardpolyRenderer.DrawArray G) s)
  rw [h3] at hF
  refine ⟨_, hF, ?_, ?_⟩
  · cases hc : (calls.foldl (HardpolyRenderer.DrawArray G) s).mDrawBatcher.mCurrentBatch with
    | none =>
      have : submittedRuns calls 0 = [] := by
        rw [← h3]; simp [DrawBatcher.pending, hc]
      simp [this]
    | some b => by_cases he : submittedRuns calls 0 = [] <;> simp [he]
  · intro b hb
    cases hc : (calls.foldl (HardpolyRenderer.DrawArray G) s).mDrawBatcher.mCurrentBatch with
    | none => simp [hc] at hb
    | some b' =>
      simp only [hc] at hb
      by_cases he : submittedRuns calls 0 = []
      · simp [he] at hb
      · simp only [he, if_false, List.mem_singleton] at hb
        subst hb
        exact ⟨rfl, by rw [← h3, pending_of_current hc]⟩

/-- C1, an instance: three triangles (nine vertices would not fit, six do) after `Begin`. -/
theorem C1_one_dispatch_within_capacity_witness :
    Emitted (frameStart sampleGlobals).log
      ([triangles 3, triangles 2, triangles 3].foldl
        (HardpolyRenderer.DrawArray sampleGlobals) (frameStart sampleGlobals)).log [] [] ∧
    ([triangles 3, triangles 2, triangles 3].foldl
        (HardpolyRenderer.DrawArray sampleGlobals) (frameStart sampleGlobals)).mDrawBatcher.pending
      = submittedRuns [triangles 3, triangles 2, triangles 3] 0 :=
  have h := C1_one_dispatch_within_capacity sampleGlobals (frameStart sampleGlobals)
    [triangles 3, triangles 2, triangles 3] (WF_frameStart _) (frameStart_current _)
    (by decide)
  ⟨h.1, h.2.1⟩

/-- C1, as stated, fails: a single `DrawArray` call with two vertices has a combined vertex
count below the capacity, yet the following `Flush` does not enter `RenderBatch` at all (the
log up to and including the `Flush` has no `RenderBatch` entry and no draw call). -/
theorem C1_no_dispatch_for_degenerate_call :
    (triangles 2).VertexCount ≤ sampleGlobals.MaxVertices ∧
    renderBatchCalls (DrawBatcher.Flush sampleGlobals
      ([triangles 2].foldl (HardpolyRenderer.DrawArray sampleGlobals)
        (frameStart sampleGlobals))).log = [] ∧
    drawCalls (DrawBatcher.Flush sampleGlobals
      ([triangles 2].foldl (HardpolyRenderer.DrawArray sampleGlobals)
        (frameStart sampleGlobals))).log = [] := by
  decide

/-- C3 fails on the code: whatever the capacity, a single accepted request with more than
`MaxVertices` vertices, submitted right after `Begin`, is recorded as one run whose vertex range
ends beyond the capacity of its batch. -/
theorem C3_oversized_request_overruns_batch (G : Globals) :
    ∃ run ∈ ((frameStart G).DrawArray G
        (triangles (max G.MaxVertices 0 + 3))).mDrawBatcher.pending,
      run.Start = 0 ∧ run.NumVertices = max G.MaxVertices 0 + 3 ∧
      G.MaxVertices < run.Start + run.NumVertices := by
  have hacc : accepted (triangles (max G.MaxVertices 0 + 3)) = true := by
    simp [accepted, triangles]
  have hn : (frameStart G).mDrawBatcher.mNextVertex = 0 := by
    rw [frameStart, Begin_batcher]; rfl
  have hover : G.MaxVertices <
      (frameStart G).mDrawBatcher.mNextVertex + (triangles (max G.MaxVertices 0 + 3)).VertexCount := by
    rw [hn]
    simp only [triangles]
    omega
  obtain ⟨-, -, -, b, h1, h2, -, -⟩ :=
    DrawArray_overflows G (frameStart G) _ (WF_frameStart G) hacc hover
  refine ⟨makeRun (triangles (max G.MaxVertices 0 + 3)) 0, ?_, rfl, rfl, ?_⟩
  · rw [pending_of_current h1, h2]
    simp
  · simp only [makeRun, triangles]
    omega

/-- C4 fails on the code: `DrawRect` never touches the batcher.  Whatever runs are pending
stay pending, the only draw call `DrawRect` issues is the one of the rectangle and it does not
enter `RenderBatch`; the pending runs are drawn later, after the rectangle (here: by the
`End` that follows). -/
theorem C4_DrawRect_leaves_runs_pending (G : Globals) (s : HardpolyRenderer)
    (args : RectDrawArgs) :
    (s.DrawRect G args).mDrawBatcher = s.mDrawBatcher ∧
    Emitted s.log (s.DrawRect G args).log [(.TriangleStrip, 0, 4)] [] ∧
    ∃ batches, Emitted s.log ((s.DrawRect G args).End G).log
      ([(.TriangleStrip, 0, 4)] ++ s.mDrawBatcher.pending.map runDraw) batches := by
  refine ⟨DrawRect_batcher G s args, DrawRect_log G s args, ?_⟩
  have h₁ := DrawRect_log G s args
  have h₂ := Flush_log G (s.DrawRect G args)
  rw [DrawRect_batcher] at h₂
  have h₃ := Emitted.emit (DrawBatcher.Flush G (s.DrawRect G args))
    [.SetViewport 0 0 G.screenWidth G.screenHeight, .ContextEnd, .SetViewFB]
  exact ⟨_, ((h₁.trans h₂).trans h₃).congr (by simp [drawCalls_cons]) rfl⟩

/-- C6: `ClearBuffers`, `SetViewport` and `End` flush first.  For every renderer state there is
a stretch `flushed` of GPU calls whose draw calls are exactly those of the pending runs of the
current batch, in append order, such that each of the three operations extends the log by
`flushed` followed by its own commands; and after each of them the batcher is empty
(`mNextVertex = 0`, no current batch, no mapped vertex pointer). -/
theorem C6_state_changes_flush_first (G : Globals) (s : HardpolyRenderer)
    (x y width height : Int) :
    (∃ flushed, drawCalls flushed = s.mDrawBatcher.pending.map runDraw ∧
      (s.ClearBuffers G).log = s.log ++ flushed ++
        [.ClearColorBuffer 0 5 5 2 10, .ClearColorBuffer 1 0 0 0 0,
         .ClearColorBuffer 2 10 0 0 0, .ClearDepthStencilBuffer 10 0] ∧
      (s.SetViewport G x y width height).log = s.log ++ flushed ++
        [.SetViewport x y width height] ∧
      (s.End G).log = s.log ++ flushed ++
        [.SetViewport 0 0 G.screenWidth G.screenHeight, .ContextEnd, .SetViewFB]) ∧
    ((s.ClearBuffers G).mDrawBatcher.mNextVertex = 0 ∧
      (s.ClearBuffers G).mDrawBatcher.mCurrentBatch = none ∧
      (s.ClearBuffers G).mDrawBatcher.mVertices = none) ∧
    ((s.SetViewport G x y width height).mDrawBatcher.mNextVertex = 0 ∧
      (s.SetViewport G x y width height).mDrawBatcher.mCurrentBatch = none ∧
      (s.SetViewport G x y width height).mDrawBatcher.mVertices = none) ∧
    ((s.End G).mDrawBatcher.mNextVertex = 0 ∧
      (s.End G).mDrawBatcher.mCurrentBatch = none ∧
      (s.End G).mDrawBatcher.mVertices = none) := by
  obtain ⟨flushed, hlog, hdraws, -⟩ := Flush_log G s
  refine ⟨⟨flushed, hdraws, ?_, ?_, ?_⟩, ?_, ?_, ?_⟩
  · simp [HardpolyRenderer.ClearBuffers, hlog]
  · simp [HardpolyRenderer.SetViewport, hlog]
  · simp [HardpolyRenderer.End, hlog]
  · simp [HardpolyRenderer.ClearBuffers]
  · simp [HardpolyRenderer.SetViewport]
  · simp [HardpolyRenderer.End]

/-- C7: a draw request with colour write disabled or fewer than three vertices is dropped:
`DrawArray` returns the renderer unchanged (cursor, current batch, pools, run lists, caches and
the log of GPU calls). -/
theorem C7_degenerate_request_is_dropped (G : Globals) (s : HardpolyRenderer)
    (drawargs : PolyDrawArgs)
    (h : drawargs.WriteColor = false ∨ drawargs.VertexCount < 3) :
    s.DrawArray G drawargs = s := by
  apply DrawArray_rejected
  rcases h with h | h
  · simp [accepted, h]
  · simp only [accepted, Bool.and_eq_false_iff, decide_eq_false_iff_not]
    right
    omega

/-- C7, an instance: with a triangle pending, a request of two vertices changes nothing. -/
theorem C7_degenerate_request_is_dropped_witness :
    (oneTriangle sampleGlobals).DrawArray sampleGlobals (triangles 2) =
      oneTriangle sampleGlobals :=
  C7_degenerate_request_is_dropped sampleGlobals (oneTriangle sampleGlobals) (triangles 2)
    (Or.inr (by decide))

end BatchingClaims

/-! ## Pixel conversions -/

section Conversions

theorem foldl_set_length {α : Type} (idx : ℕ → ℕ) (val : ℕ → α) (l : List ℕ) (d : List α) :
    (l.foldl (fun d i => d.set (idx i) (val i)) d).length = d.length := by
  induction l generalizing d with
  | nil => rfl
  | cons i rest ih => rw [List.foldl_cons, ih, List.length_set]

theorem foldl_set_getElem?_of_ne {α : Type} (idx : ℕ → ℕ) (val : ℕ → α) (l : List ℕ)
    (d : List α) (j : ℕ) (h : ∀ i ∈ l, idx i ≠ j) :
    (l.foldl (fun d i => d.set (idx i) (val i)) d)[j]? = d[j]? := by
  induction l generalizing d with
  | nil => rfl
  | cons i rest ih =>
    rw [List.foldl_cons, ih _ (fun i' hi' => h i' (List.mem_cons_of_mem _ hi'))]
    rw [List.getElem?_set, if_neg (h i (List.mem_cons_self _ _))]

/-- Filling a list by a counting loop: an index written in round `i` and in no later round
holds the value of round `i` afterwards. -/
theorem range_fill_getElem? {α : Type} (idx : ℕ → ℕ) (val : ℕ → α) (n : ℕ) (d : List α)
    (i : ℕ) (hi : i < n) (hlt : idx i < d.length)
    (hinj : ∀ i', i' < n → i < i' → idx i' ≠ idx i) :
    ((List.range n).foldl (fun d i => d.set (idx i) (val i)) d)[idx i]? = some (val i) := by
  induction n with
  | zero => omega
  | succ n ih =>
    rw [List.range_succ, List.foldl_append, List.foldl_cons, List.foldl_nil, List.getElem?_set]
    by_cases hin : i = n
    · subst hin
      simp [foldl_set_length, hlt]
    · have hi' : i < n := by omega
      rw [if_neg (hinj n (by omega) hi')]
      exact ih hi' (fun i' h1 h2 => hinj i' (by omega) h2)

theorem int32_of_fits (v : Int) (h0 : 0 ≤ v) (h1 : v < 2 ^ 31) : int32 v = v := by
  unfold int32
  omega

theorem storeAt_natCast {α : Type} (dest : List α) (i : ℕ) (v : α) :
    storeAt dest (i : Int) v = dest.set i v := by
  simp [storeAt]

theorem storeAt_length {α : Type} (dest : List α) (i : Int) (v : α) :
    (storeAt dest i v).length = dest.length := by
  unfold storeAt
  split <;> simp

theorem forLoop_length {α : Type} (n : Int) (body : Int → List α → List α)
    (h : ∀ i d, (body i d).length = d.length) (init : List α) :
    (forLoop n body init).length = init.length := by
  unfold forLoop
  generalize List.range n.toNat = l
  induction l generalizing init with
  | nil => rfl
  | cons i rest ih => rw [List.foldl_cons, ih, h]

/-- The buffer that the conversion returns has the size that `resize` was called with: the
`int` product, whatever the stores of the loop nest do. -/
theorem ConvertPal_length (src : Int → Byte) (width height : Int) :
    (ConvertPal src width height).length = toSizeT (int32 (width * height)) := by
  unfold ConvertPal
  rw [forLoop_length _ _ (fun y d => forLoop_length _ _ (fun x d' => storeAt_length _ _ _) d)]
  simp

/-- For dimensions whose product fits in `int`, no `int` expression of the conversion wraps and
every store lies inside the buffer. -/
theorem ConvertPal_natCast (src : Int → Byte) (W H : ℕ)
    (hfit : (W : Int) * (H : Int) < 2 ^ 31) :
    ConvertPal src W H =
      (List.range H).foldl
        (fun dest y => (List.range W).foldl
          (fun dest x => dest.set (x + y * W) (src ((y : Int) + (x : Int) * (H : Int)))) dest)
        (List.replicate (W * H) 0) := by
  have hWH : ((W * H : ℕ) : Int) < 2 ^ 31 := by push_cast; exact hfit
  have hsize : toSizeT (int32 ((W : Int) * (H : Int))) = W * H := by
    rw [int32_of_fits _ (by positivity) hfit]
    have e : (W : Int) * (H : Int) = ((W * H : ℕ) : Int) := by push_cast; rfl
    rw [e]
    unfold toSizeT
    omega
  simp only [ConvertPal, forLoop, Int.toNat_ofNat, hsize]
  apply List.foldl_ext
  intro d y hy
  apply List.foldl_ext
  intro d' x hx
  rw [List.mem_range] at hx hy
  have h1 : (y + 1) * W ≤ H * W := Nat.mul_le_mul_right W hy
  have h2 : (x + 1) * H ≤ W * H := Nat.mul_le_mul_right H hx
  have h3 : (y + 1) * W = y * W + W := Nat.succ_mul y W
  have h4 : (x + 1) * H = x * H + H := Nat.succ_mul x H
  have h5 : H * W = W * H := Nat.mul_comm H W
  have e₁ : (y : Int) * (W : Int) = ((y * W : ℕ) : Int) := by push_cast; rfl
  have e₂ : (x : Int) * (H : Int) = ((x * H : ℕ) : Int) := by push_cast; rfl
  have e₃ : (x : Int) + ((y * W : ℕ) : Int) = ((x + y * W : ℕ) : Int) := by push_cast; rfl
  have e₄ : (y : Int) + ((x * H : ℕ) : Int) = ((y + x * H : ℕ) : Int) := by push_cast; rfl
  rw [e₁, e₂, int32_of_fits ((y * W : ℕ) : Int) (by omega) (by omega),
    int32_of_fits ((x * H : ℕ) : Int) (by omega) (by omega), e₃, e₄,
    int32_of_fits ((x + y * W : ℕ) : Int) (by omega) (by omega),
    int32_of_fits ((y + x * H : ℕ) : Int) (by omega) (by omega), storeAt_natCast]

/-- The rows `0 .. k-1` after `k` rounds of the outer loop of the conversion. -/
theorem ConvertPal_rows (src : Int → Byte) (W H k : ℕ) (hk : k ≤ H) :
    ((List.range k).foldl
        (fun dest y => (List.range W).foldl
          (fun dest x => dest.set (x + y * W) (src ((y : Int) + (x : Int) * (H : Int)))) dest)
        (List.replicate (W * H) (0 : Byte))).length = W * H ∧
    ∀ x y, x < W → y < k →
      ((List.range k).foldl
        (fun dest y => (List.range W).foldl
          (fun dest x => dest.set (x + y * W) (src ((y : Int) + (x : Int) * (H : Int)))) dest)
        (List.replicate (W * H) (0 : Byte)))[x + y * W]? =
        some (src ((y : Int) + (x : Int) * (H : Int))) := by
  induction k with
  | zero => exact ⟨by simp, fun x y _ hy => by omega⟩
  | succ k ih =>
    obtain ⟨hlen, hrows⟩ := ih (by omega)
    rw [List.range_succ, List.foldl_append, List.foldl_cons, List.foldl_nil]
    refine ⟨by rw [foldl_set_length, hlen], ?_⟩
    intro x y hx hy
    have hkW : (k + 1) * W ≤ H * W := Nat.mul_le_mul_right W hk
    have hWH : H * W = W * H := Nat.mul_comm H W
    have hsucc : (k + 1) * W = k * W + W := Nat.succ_mul k W
    by_cases hyk : y = k
    · subst hyk
      exact range_fill_getElem? (fun x => x + y * W)
        (fun x => src ((y : Int) + (x : Int) * (H : Int))) W _ x hx
        (by rw [hlen]; show x + y * W < W * H; omega)
        (fun x' _ hlt => by show x' + y * W ≠ x + y * W; omega)
    · have hylt : y < k := by omega
      have hyW : (y + 1) * W ≤ k * W := Nat.mul_le_mul_right W hylt
      have hsucc' : (y + 1) * W = y * W + W := Nat.succ_mul y W
      rw [foldl_set_getElem?_of_ne (fun x => x + k * W)
        (fun x => src ((k : Int) + (x : Int) * (H : Int))) _ _ _
        (fun x' _ => by show x' + k * W ≠ x + y * W; omega)]
      exact hrows x y hx hylt

theorem ConvertPal_congr (src src' : Int → Byte) (W H : ℕ)
    (hfit : (W : Int) * (H : Int) < 2 ^ 31)
    (h : ∀ i : Int, 0 ≤ i → i < (W : Int) * (H : Int) → src i = src' i) :
    ConvertPal src W H = ConvertPal src' W H := by
  rw [ConvertPal_natCast src W H hfit, ConvertPal_natCast src' W H hfit]
  apply List.foldl_ext
  intro d y hy
  apply List.foldl_ext
  intro d' x hx
  rw [List.mem_range] at hx hy
  have hb : (y : Int) + (x : Int) * (H : Int) < (W : Int) * (H : Int) := by
    have h1 : (x + 1) * H ≤ W * H := Nat.mul_le_mul_right H hx
    have h2 : (x + 1) * H = x * H + H := Nat.succ_mul x H
    have h3 : ((y + x * H : ℕ) : Int) < ((W * H : ℕ) : Int) := by
      exact_mod_cast (by omega : y + x * H < W * H)
    push_cast at h3
    exact h3
  rw [h _ (by positivity) hb]

/-- C8, amended: for a non-null source and dimensions `width, height >= 0` whose product is at
most `2^31 - 1`, the largest `int`, the conversion shared by `GetTexturePal` and
`GetEngineTexturePal` yields exactly `width * height` pixels with
`dest[x + y * width] = src[y + x * height]` for all `0 <= x < width`, `0 <= y < height`; every
source index it reads lies in `[0, width * height)` (the index is in that range, and two
sources that agree on that range give the same result).  On a cache miss both resolvers create
an `R8` texture of these dimensions from exactly these pixels. -/
theorem C8_palette_conversion_transposes (src : Int → Byte) (width height : Int)
    (hw : 0 ≤ width) (hh : 0 ≤ height) (hfit : width * height ≤ 2 ^ 31 - 1) :
    (ConvertPal src width height).length = (width * height).toNat ∧
    (∀ x y : Int, 0 ≤ x → x < width → 0 ≤ y → y < height →
      (ConvertPal src width height)[(x + y * width).toNat]? = some (src (y + x * height)) ∧
      0 ≤ y + x * height ∧ y + x * height < width * height) ∧
    (∀ src' : Int → Byte, (∀ i, 0 ≤ i → i < width * height → src i = src' i) →
      ConvertPal src width height = ConvertPal src' width height) ∧
    (∀ (s : HardpolyRenderer) (p : BytePtr), s.mEngineTextures.find (some p.addr) = none →
      (s.GetEngineTexturePal (some p) width height).2.gpuTextures[
          (s.GetEngineTexturePal (some p) width height).1]? =
        some { Width := width, Height := height, Mipmap := false, Format := .R8,
               Pixels := (ConvertPal p.read width height).map (fun v : Byte => v.val) }) ∧
    (∀ (s : HardpolyRenderer) (z : FTexture), z.Width = width → z.Height = height →
      s.mTextures.find (some z.addr) = none →
      (s.GetTexturePal (some z)).2.gpuTextures[(s.GetTexturePal (some z)).1]? =
        some { Width := width, Height := height, Mipmap := false, Format := .R8,
               Pixels := (ConvertPal (fun i => z.Pixels.getD i.toNat 0) width height).map
                 (fun v : Byte => v.val) }) := by
  lift width to ℕ using hw
  lift height to ℕ using hh
  have hfit' : (width : Int) * (height : Int) < 2 ^ 31 := by omega
  obtain ⟨hlen, hrows⟩ := ConvertPal_rows src width height height (le_refl _)
  rw [← ConvertPal_natCast src width height hfit'] at hlen hrows
  refine ⟨?_, ?_, ?_, ?_, ?_⟩
  · rw [hlen]
    have e : (width : Int) * (height : Int) = ((width * height : ℕ) : Int) := by
      push_cast; rfl
    rw [e]
    omega
  · intro x y hx0 hx hy0 hy
    lift x to ℕ using hx0
    lift y to ℕ using hy0
    have hx' : x < width := by exact_mod_cast hx
    have hy' : y < height := by exact_mod_cast hy
    have e : ((x : Int) + (y : Int) * (width : Int)).toNat = x + y * width := by
      have e' : (x : Int) + (y : Int) * (width : Int) = ((x + y * width : ℕ) : Int) := by
        push_cast; rfl
      rw [e']
      omega
    refine ⟨by rw [e]; exact hrows x y hx' hy', by positivity, ?_⟩
    have h1 : (x + 1) * height ≤ width * height := Nat.mul_le_mul_right height hx'
    have h2 : (x + 1) * height = x * height + height := Nat.succ_mul x height
    have h3 : ((y + x * height : ℕ) : Int) < ((width * height : ℕ) : Int) := by
      exact_mod_cast (by omega : y + x * height < width * height)
    push_cast at h3
    exact h3
  · intro src' h
    exact ConvertPal_congr src src' width height hfit' h
  · intro s p hmiss
    simp [HardpolyRenderer.GetEngineTexturePal, ptrKey, hmiss, HardpolyRenderer.makeTexture]
  · intro s z hzw hzh hmiss
    simp [HardpolyRenderer.GetTexturePal, texKey, hmiss, HardpolyRenderer.makeTexture, hzw, hzh]

/-- C8, an instance: a `2 x 3` image; the pixel at `x = 1`, `y = 2` comes from source index
`2 + 1 * 3 = 5`. -/
theorem C8_palette_conversion_transposes_witness :
    (ConvertPal samplePixels.read 2 3).length = ((2 : Int) * 3).toNat ∧
    (ConvertPal samplePixels.read 2 3)[((1 : Int) + 2 * 2).toNat]? =
      some (samplePixels.read (2 + 1 * 3)) :=
  have h := C8_palette_conversion_transposes samplePixels.read 2 3 (by decide) (by decide)
    (by decide)
  ⟨h.1, (h.2.1 1 2 (by decide) (by decide) (by decide) (by decide)).1⟩

/-- C8, as stated, fails: for the dimensions `65536 x 65536`, both `>= 0`, the `int` product
that `pixels.resize(width * height)` is called with is `0`, so the buffer of the conversion of
a non-null (here all-zero) source has no pixels at all, and every store of the loop nest lies
outside it, where the claim promises a buffer of `width * height = 4294967296` pixels. -/
theorem C8_wide_image_gets_no_pixels :
    (0 : Int) ≤ 65536 ∧
    (ConvertPal (fun _ => 0) 65536 65536).length = 0 ∧
    ((65536 : Int) * 65536).toNat = 4294967296 :=
  ⟨by decide, by rw [ConvertPal_length]; decide, by decide⟩

theorem packRGBA_bytes (r g b : ℕ) (hr : r < 256) (hg : g < 256) (hb : b < 256) :
    packRGBA r g b 255 = r ||| (g <<< 8) ||| (b <<< 16) ||| (255 <<< 24) ∧
    packRGBA r g b 255 = r + g * 2 ^ 8 + b * 2 ^ 16 + 255 * 2 ^ 24 := by
  have e₁ : r ||| g * 2 ^ 8 = 2 ^ 8 * g + r := by
    rw [Nat.lor_comm, Nat.mul_comm]
    exact (Nat.mul_add_lt_is_or (by simpa using hr) g).symm
  have e₂ : (2 ^ 8 * g + r) ||| b * 2 ^ 16 = 2 ^ 16 * b + (2 ^ 8 * g + r) := by
    rw [Nat.lor_comm, Nat.mul_comm]
    exact (Nat.mul_add_lt_is_or (by norm_num; omega) b).symm
  have e₃ : (2 ^ 16 * b + (2 ^ 8 * g + r)) ||| 255 * 2 ^ 24 =
      2 ^ 24 * 255 + (2 ^ 16 * b + (2 ^ 8 * g + r)) := by
    rw [Nat.lor_comm, Nat.mul_comm]
    exact (Nat.mul_add_lt_is_or (by norm_num; omega) 255).symm
  have m₁ : r % 2 ^ 32 = r := Nat.mod_eq_of_lt (by norm_num; omega)
  have m₂ : (g * 2 ^ 8) % 2 ^ 32 = g * 2 ^ 8 := Nat.mod_eq_of_lt (by norm_num; omega)
  have m₃ : (b * 2 ^ 16) % 2 ^ 32 = b * 2 ^ 16 := Nat.mod_eq_of_lt (by norm_num; omega)
  have m₄ : (255 * 2 ^ 24) % 2 ^ 32 = 255 * 2 ^ 24 := by norm_num
  have m₅ : (2 ^ 24 * 255 + (2 ^ 16 * b + (2 ^ 8 * g + r))) % 2 ^ 32 =
      2 ^ 24 * 255 + (2 ^ 16 * b + (2 ^ 8 * g + r)) := Nat.mod_eq_of_lt (by norm_num; omega)
  constructor
  · simp only [packRGBA, Nat.shiftLeft_eq, m₁, m₂, m₃, m₄, e₁, e₂, e₃, m₅]
  · simp only [packRGBA, Nat.shiftLeft_eq, m₁, m₂, m₃, m₄, e₁, e₂, e₃, m₅]
    ring

theorem ConvertColormap_getElem? (G : Globals) (basecolormap : Option BytePtr) (i : ℕ)
    (hi : i < (256 * G.NUMCOLORMAPS).toNat) :
    (ConvertColormap G basecolormap)[i]? =
      some (packRGBA (G.BaseColors (readByte basecolormap i)).r.val
        (G.BaseColors (readByte basecolormap i)).g.val
        (G.BaseColors (readByte basecolormap i)).b.val 255) := by
  simp only [ConvertColormap, forLoop, Int.toNat_ofNat]
  exact range_fill_getElem? (fun i => i)
    (fun i : ℕ => packRGBA (G.BaseColors (readByte basecolormap i)).r.val
        (G.BaseColors (readByte basecolormap i)).g.val
        (G.BaseColors (readByte basecolormap i)).b.val 255) _ _ i hi (by simpa using hi)
    (fun i' _ h => by show i' ≠ i; omega)

/-- C10: the array `GetColormapTexture` builds has `256 * NUMCOLORMAPS` entries, and entry `i`
is `r | (g << 8) | (b << 16) | (255 << 24)` for the palette colour `(r, g, b)` at index
`basecolormap[i]`: a 32-bit word whose top byte is `255` and whose low three bytes are `r`,
`g` and `b`.  On a cache miss the `RGBA8` texture of size `256 x NUMCOLORMAPS` is created from
this array. -/
theorem C10_colormap_expansion (G : Globals) (basecolormap : Option BytePtr) (i : ℕ)
    (hi : i < (256 * G.NUMCOLORMAPS).toNat) :
    (ConvertColormap G basecolormap).length = (256 * G.NUMCOLORMAPS).toNat ∧
    (∃ e, (ConvertColormap G basecolormap)[i]? = some e ∧
      e = (G.BaseColors (readByte basecolormap i)).r.val
          ||| ((G.BaseColors (readByte basecolormap i)).g.val <<< 8)
          ||| ((G.BaseColors (readByte basecolormap i)).b.val <<< 16)
          ||| (255 <<< 24) ∧
      e < 2 ^ 32 ∧
      e / 2 ^ 24 = 255 ∧
      e % 2 ^ 8 = (G.BaseColors (readByte basecolormap i)).r.val ∧
      e / 2 ^ 8 % 2 ^ 8 = (G.BaseColors (readByte basecolormap i)).g.val ∧
      e / 2 ^ 16 % 2 ^ 8 = (G.BaseColors (readByte basecolormap i)).b.val) ∧
    (∀ s : HardpolyRenderer, s.mColormaps.find (ptrKey basecolormap) = none →
      (s.GetColormapTexture G basecolormap).2.gpuTextures[
          (s.GetColormapTexture G basecolormap).1]? =
        some { Width := 256, Height := G.NUMCOLORMAPS, Mipmap := false, Format := .RGBA8,
               Pixels := ConvertColormap G basecolormap }) := by
  refine ⟨?_, ?_, ?_⟩
  · simp only [ConvertColormap, forLoop, Int.toNat_ofNat]
    rw [foldl_set_length (fun i => i)
      (fun i : ℕ => packRGBA (G.BaseColors (readByte basecolormap i)).r.val
        (G.BaseColors (readByte basecolormap i)).g.val
        (G.BaseColors (readByte basecolormap i)).b.val 255)]
    simp
  · obtain ⟨h₁, h₂⟩ := packRGBA_bytes (G.BaseColors (readByte basecolormap i)).r.val
      (G.BaseColors (readByte basecolormap i)).g.val
      (G.BaseColors (readByte basecolormap i)).b.val
      (G.BaseColors (readByte basecolormap i)).r.isLt
      (G.BaseColors (readByte basecolormap i)).g.isLt
      (G.BaseColors (readByte basecolormap i)).b.isLt
    have hr := (G.BaseColors (readByte basecolormap i)).r.isLt
    have hg := (G.BaseColors (readByte basecolormap i)).g.isLt
    have hb := (G.BaseColors (readByte basecolormap i)).b.isLt
    refine ⟨_, ConvertColormap_getElem? G basecolormap i hi, h₁, ?_, ?_, ?_, ?_, ?_⟩ <;>
      rw [h₂] <;> norm_num <;> omega
  · intro s hmiss
    simp [HardpolyRenderer.GetColormapTexture, hmiss, HardpolyRenderer.makeTexture]

/-- C10, an instance: entry `5` of the colormap of the sample globals (`NUMCOLORMAPS = 1`). -/
theorem C10_colormap_expansion_witness :
    (ConvertColormap sampleGlobals (some samplePixels)).length =
      (256 * sampleGlobals.NUMCOLORMAPS).toNat :=
  (C10_colormap_expansion sampleGlobals (some samplePixels) 5 (by decide)).1

end Conversions

/-! ## The resource caches -/

section Caches

theorem find_cons (k : Option Nat) (v : Nat) (rest : TextureMap) (key : Option Nat) :
    TextureMap.find ((k, v) :: rest) key = if k = key then some v else rest.find key := rfl

/-- A resolver call whose identity is cached returns the cached texture and changes nothing. -/
theorem run_hit (G : Globals) (s : HardpolyRenderer) (c : ResolverCall) (t : Nat)
    (h : (s.cache c.cache).find c.key = some t) : c.run G s = (t, s) := by
  cases c <;>
    simp only [ResolverCall.cache, ResolverCall.key, HardpolyRenderer.cache] at h <;>
    simp [ResolverCall.run, HardpolyRenderer.GetTexturePal, HardpolyRenderer.GetTextureBgra,
      HardpolyRenderer.GetEngineTexturePal, HardpolyRenderer.GetColormapTexture,
      HardpolyRenderer.GetTranslationTexture, h]

/-- A resolver call whose identity is not cached creates one texture, returns it and caches it
under its identity; all other cache entries stay as they are. -/
theorem run_miss (G : Globals) (s : HardpolyRenderer) (c : ResolverCall)
    (h : (s.cache c.cache).find c.key = none) :
    (c.run G s).1 = s.gpuTextures.length ∧
    (c.run G s).2.gpuTextures.length = s.gpuTextures.length + 1 ∧
    ∀ id k, ((c.run G s).2.cache id).find k =
      if id = c.cache ∧ k = c.key then some s.gpuTextures.length else (s.cache id).find k := by
  cases c with
  | GetTexturePal z =>
    simp only [ResolverCall.cache, ResolverCall.key, HardpolyRenderer.cache] at h
    refine ⟨?_, ?_, ?_⟩
    · cases z <;> simp [ResolverCall.run, HardpolyRenderer.GetTexturePal, h,
        HardpolyRenderer.makeTexture]
    · cases z <;> simp [ResolverCall.run, HardpolyRenderer.GetTexturePal, h,
        HardpolyRenderer.makeTexture]
    · intro id k
      cases z <;> cases id <;>
        simp [ResolverCall.run, HardpolyRenderer.GetTexturePal, h, HardpolyRenderer.makeTexture,
          HardpolyRenderer.cache, ResolverCall.cache, ResolverCall.key, find_cons, eq_comm]
  | GetTextureBgra z =>
    simp only [ResolverCall.cache, ResolverCall.key, HardpolyRenderer.cache] at h
    refine ⟨?_, ?_, ?_⟩
    · cases z <;> simp [ResolverCall.run, HardpolyRenderer.GetTextureBgra, h,
        HardpolyRenderer.makeTexture]
    · cases z <;> simp [ResolverCall.run, HardpolyRenderer.GetTextureBgra, h,
        HardpolyRenderer.makeTexture]
    · intro id k
      cases z <;> cases id <;>
        simp [ResolverCall.run, HardpolyRenderer.GetTextureBgra, h, HardpolyRenderer.makeTexture,
          HardpolyRenderer.cache, ResolverCall.cache, ResolverCall.key, find_cons, eq_comm]
  | GetEngineTexturePal p w hh =>
    simp only [ResolverCall.cache, ResolverCall.key, HardpolyRenderer.cache] at h
    refine ⟨?_, ?_, ?_⟩
    · cases p <;> simp [ResolverCall.run, HardpolyRenderer.GetEngineTexturePal, h,
        HardpolyRenderer.makeTexture]
    · cases p <;> simp [ResolverCall.run, HardpolyRenderer.GetEngineTexturePal, h,
        HardpolyRenderer.makeTexture]
    · intro id k
      cases p <;> cases id <;>
        simp [ResolverCall.run, HardpolyRenderer.GetEngineTexturePal, h,
          HardpolyRenderer.makeTexture, HardpolyRenderer.cache, ResolverCall.cache,
          ResolverCall.key, find_cons, eq_comm]
  | GetColormapTexture p =>
    simp only [ResolverCall.cache, ResolverCall.key, HardpolyRenderer.cache] at h
    refine ⟨?_, ?_, ?_⟩
    · simp [ResolverCall.run, HardpolyRenderer.GetColormapTexture, h,
        HardpolyRenderer.makeTexture]
    · simp [ResolverCall.run, HardpolyRenderer.GetColormapTexture, h,
        HardpolyRenderer.makeTexture]
    · intro id k
      cases id <;>
        simp [ResolverCall.run, HardpolyRenderer.GetColormapTexture, h,
          HardpolyRenderer.makeTexture, HardpolyRenderer.cache, ResolverCall.cache,
          ResolverCall.key, find_cons, eq_comm]
  | GetTranslationTexture p =>
    simp only [ResolverCall.cache, ResolverCall.key, HardpolyRenderer.cache] at h
    refine ⟨?_, ?_, ?_⟩
    · simp [ResolverCall.run, HardpolyRenderer.GetTranslationTexture, h,
        HardpolyRenderer.makeTexture]
    · simp [ResolverCall.run, HardpolyRenderer.GetTranslationTexture, h,
        HardpolyRenderer.makeTexture]
    · intro id k
      cases id <;>
        simp [ResolverCall.run, HardpolyRenderer.GetTranslationTexture, h,
          HardpolyRenderer.makeTexture, HardpolyRenderer.cache, ResolverCall.cache,
          ResolverCall.key, find_cons, eq_comm]

/-- A cached identity stays cached, with the same texture, across any resolver call. -/
theorem run_stable (G : Globals) (s : HardpolyRenderer) (c : ResolverCall) (id : CacheId)
    (k : Option Nat) (t : Nat) (h : (s.cache id).find k = some t) :
    ((c.run G s).2.cache id).find k = some t := by
  cases hc : (s.cache c.cache).find c.key with
  | some t' => rw [run_hit G s c t' hc]; exact h
  | none =>
    rw [(run_miss G s c hc).2.2 id k]
    by_cases hid : id = c.cache ∧ k = c.key
    · obtain ⟨rfl, rfl⟩ := hid
      rw [hc] at h
      cases h
    · rw [if_neg hid]; exact h

/-- Once an identity is cached, every later call with this identity returns the cached
texture and creates nothing. -/
theorem runCalls_cached (G : Globals) (calls : List ResolverCall) (s : HardpolyRenderer)
    (id : CacheId) (k : Option Nat) (t : Nat) (h : (s.cache id).find k = some t) :
    ∀ e ∈ runCalls G s calls, e.call.cache = id → e.call.key = k →
      e.texture = t ∧ e.created = false := by
  induction calls generalizing s with
  | nil => intro e he; simp [runCalls] at he
  | cons c rest ih =>
    intro e he hid hk
    simp only [runCalls, List.mem_cons] at he
    rcases he with rfl | he
    · simp only at hid hk
      subst hid hk
      rw [run_hit G s c t h]
      simp
    · exact ih _ (run_stable G s c id k t h) e he hid hk

theorem creations_cached (G : Globals) (calls : List ResolverCall) (s : HardpolyRenderer)
    (id : CacheId) (k : Option Nat) (t : Nat) (h : (s.cache id).find k = some t) :
    creations (runCalls G s calls) id k = 0 := by
  unfold creations
  rw [List.countP_eq_zero]
  intro e he
  by_cases hid : e.call.cache = id
  · by_cases hk : e.call.key = k
    · simp [(runCalls_cached G calls s id k t h e he hid hk).2]
    · simp [hk]
  · simp [hid]

/-- The trace of a sequence of resolver calls, for one identity `k` of one cache `id`: all
calls with this identity return the same texture, and the number of calls that create a
texture for it is `1` when the identity is not cached at the start and occurs in the sequence,
and `0` otherwise. -/
theorem runCalls_identity (G : Globals) (calls : List ResolverCall) (s : HardpolyRenderer)
    (id : CacheId) (k : Option Nat) :
    (∀ e₁ ∈ runCalls G s calls, ∀ e₂ ∈ runCalls G s calls,
      e₁.call.cache = id → e₁.call.key = k → e₂.call.cache = id → e₂.call.key = k →
      e₁.texture = e₂.texture) ∧
    creations (runCalls G s calls) id k =
      if (s.cache id).find k = none ∧ ∃ c ∈ calls, c.cache = id ∧ c.key = k then 1 else 0 := by
  induction calls generalizing s with
  | nil => simp [runCalls, creations]
  | cons c rest ih =>
    cases hfind : (s.cache id).find k with
    | some t =>
      refine ⟨?_, ?_⟩
      · intro e₁ h₁ e₂ h₂ a₁ b₁ a₂ b₂
        rw [(runCalls_cached G _ s id k t hfind e₁ h₁ a₁ b₁).1,
          (runCalls_cached G _ s id k t hfind e₂ h₂ a₂ b₂).1]
      · rw [creations_cached G _ s id k t hfind]
        simp
    | none =>
      by_cases hc : c.cache = id ∧ c.key = k
      · obtain ⟨rfl, rfl⟩ := hc
        obtain ⟨m₁, m₂, m₃⟩ := run_miss G s c hfind
        have hcached : (((c.run G s).2).cache c.cache).find c.key = some s.gpuTextures.length := by
          rw [m₃]; simp
        have hrest := runCalls_cached G rest (c.run G s).2 c.cache c.key _ hcached
        have hall : ∀ e ∈ runCalls G s (c :: rest), e.call.cache = c.cache →
            e.call.key = c.key → e.texture = s.gpuTextures.length := by
          intro e he a b
          simp only [runCalls, List.mem_cons] at he
          rcases he with rfl | he
          · exact m₁
          · exact (hrest e he a b).1
        refine ⟨?_, ?_⟩
        · intro e₁ h₁ e₂ h₂ a₁ b₁ a₂ b₂
          rw [hall e₁ h₁ a₁ b₁, hall e₂ h₂ a₂ b₂]
        · have h0 := creations_cached G rest (c.run G s).2 c.cache c.key _ hcached
          unfold creations at h0 ⊢
          rw [runCalls, List.countP_cons, h0]
          simp [m₂]
      · have hkeep : (((c.run G s).2).cache id).find k = none := by
          cases hc' : (s.cache c.cache).find c.key with
          | some t' => rw [run_hit G s c t' hc']; exact hfind
          | none =>
            rw [(run_miss G s c hc').2.2 id k, if_neg (fun h => hc ⟨h.1.symm, h.2.symm⟩)]
            exact hfind
        obtain ⟨i₁, i₂⟩ := ih (c.run G s).2
        refine ⟨?_, ?_⟩
        · intro e₁ h₁ e₂ h₂ a₁ b₁ a₂ b₂
          simp only [runCalls, List.mem_cons] at h₁ h₂
          rcases h₁ with rfl | h₁
          · exact absurd ⟨a₁, b₁⟩ hc
          · rcases h₂ with rfl | h₂
            · exact absurd ⟨a₂, b₂⟩ hc
            · exact i₁ e₁ h₁ e₂ h₂ a₁ b₁ a₂ b₂
        · have hhead : (decide (c.cache = id) && decide (c.key = k)) = false := by
            by_cases h1 : c.cache = id
            · have h2 : c.key ≠ k := fun h2 => hc ⟨h1, h2⟩
              simp [h2]
            · simp [h1]
          unfold creations at i₂ ⊢
          rw [runCalls, List.countP_cons, i₂, hkeep]
          simp [hhead, hc]

/-- C5: for every sequence of resolver calls (of `GetTexturePal`, `GetTextureBgra`,
`GetEngineTexturePal`, `GetColormapTexture` and `GetTranslationTexture`, in any order and with
any arguments) run from any renderer state, and for every identity `key` of every cache: any
two calls of the sequence with this identity return the same texture object, and when the
identity is not cached at the start and is resolved in the sequence, exactly one call of the
sequence creates a texture for it. -/
theorem C5_resolvers_cache_by_identity (G : Globals) (s : HardpolyRenderer)
    (calls : List ResolverCall) (c : ResolverCall) (hc : c ∈ calls)
    (hmiss : (s.cache c.cache).find c.key = none) :
    (∀ e₁ ∈ runCalls G s calls, ∀ e₂ ∈ runCalls G s calls,
      e₁.call.cache = c.cache → e₁.call.key = c.key →
      e₂.call.cache = c.cache → e₂.call.key = c.key →
      e₁.texture = e₂.texture) ∧
    creations (runCalls G s calls) c.cache c.key = 1 ∧
    (runCalls G s calls).map (fun e => e.call) = calls := by
  obtain ⟨h₁, h₂⟩ := runCalls_identity G calls s c.cache c.key
  refine ⟨h₁, ?_, ?_⟩
  · rw [h₂, if_pos ⟨hmiss, c, hc, rfl, rfl⟩]
  · clear h₁ h₂ hc hmiss
    induction calls generalizing s with
    | nil => rfl
    | cons c' rest ih => simp [runCalls, ih]

/-- C5, an instance: the null texture is resolved twice through `GetTexturePal` with a
colormap lookup in between, starting from a fresh renderer. -/
theorem C5_resolvers_cache_by_identity_witness :
    creations
      (runCalls sampleGlobals HardpolyRenderer.init
        [.GetTexturePal none, .GetColormapTexture none, .GetTexturePal none])
      CacheId.Textures none = 1 :=
  (C5_resolvers_cache_by_identity sampleGlobals HardpolyRenderer.init
    [.GetTexturePal none, .GetColormapTexture none, .GetTexturePal none]
    (.GetTexturePal none) (by decide) (by decide)).2.1

/-- C9 (as amended): on a renderer in which the null identity is not cached yet,
`GetTexturePal(null)` and `GetEngineTexturePal(null, w, h)` create a `1 x 1` palette texture
whose single pixel is `0`, and `GetTextureBgra(null)` creates a `1 x 1` colour texture whose
single pixel is the word `0xff00ffff`, which is red `255`, green `255`, blue `0`, alpha `255`
in the packing `red | green << 8 | blue << 16 | alpha << 24`; resolving null again through
the same resolver returns the same texture and changes nothing. -/
theorem C9_null_placeholders (G : Globals) (s : HardpolyRenderer) (width height : Int)
    (hT : s.mTextures.find none = none) (hE : s.mEngineTextures.find none = none) :
    ((s.GetTexturePal none).2.gpuTextures[(s.GetTexturePal none).1]? =
        some { Width := 1, Height := 1, Mipmap := false, Format := .R8, Pixels := [0] } ∧
      (s.GetTexturePal none).2.GetTexturePal none = s.GetTexturePal none) ∧
    ((s.GetEngineTexturePal none width height).2.gpuTextures[
          (s.GetEngineTexturePal none width height).1]? =
        some { Width := 1, Height := 1, Mipmap := false, Format := .R8, Pixels := [0] } ∧
      ∀ w h : Int, (s.GetEngineTexturePal none width height).2.GetEngineTexturePal none w h =
        s.GetEngineTexturePal none width height) ∧
    ((s.GetTextureBgra G none).2.gpuTextures[(s.GetTextureBgra G none).1]? =
        some { Width := 1, Height := 1, Mipmap := false, Format := .RGBA8,
               Pixels := [0xff00ffff] } ∧
      (s.GetTextureBgra G none).2.GetTextureBgra G none = s.GetTextureBgra G none ∧
      (0xff00ffff : Nat) = packRGBA 255 255 0 255) := by
  refine ⟨⟨?_, ?_⟩, ⟨?_, ?_⟩, ⟨?_, ?_, by decide⟩⟩
  · simp [HardpolyRenderer.GetTexturePal, texKey, hT, HardpolyRenderer.makeTexture]
  · simp [HardpolyRenderer.GetTexturePal, texKey, hT, HardpolyRenderer.makeTexture, find_cons]
  · simp [HardpolyRenderer.GetEngineTexturePal, ptrKey, hE, HardpolyRenderer.makeTexture]
  · intro w h
    simp [HardpolyRenderer.GetEngineTexturePal, ptrKey, hE, HardpolyRenderer.makeTexture,
      find_cons]
  · simp [HardpolyRenderer.GetTextureBgra, texKey, hT, HardpolyRenderer.makeTexture]
  · simp [HardpolyRenderer.GetTextureBgra, texKey, hT, HardpolyRenderer.makeTexture, find_cons]

/-- C9, an instance: the fresh renderer. -/
theorem C9_null_placeholders_witness :
    (HardpolyRenderer.init.GetTexturePal none).2.gpuTextures[
        (HardpolyRenderer.init.GetTexturePal none).1]? =
      some { Width := 1, Height := 1, Mipmap := false, Format := .R8, Pixels := [0] } :=
  (C9_null_placeholders sampleGlobals HardpolyRenderer.init 4 4 (by decide) (by decide)).1.1

/-- C9, as stated, fails: on a fresh renderer the placeholder of `GetTextureBgra(null)` is the
word `0xff00ffff`; in the packing `red | green << 8 | blue << 16 | alpha << 24` its alpha is
`255` (not `0`), its green is `255` (not `0`) and its blue is `0` (not `255`), so it is not
fully-transparent magenta.  Moreover `GetTexturePal(null)` called after `GetTextureBgra(null)`
returns that same colour texture instead of a palette texture with pixel `0`, because both
resolvers share the cache `mTextures`. -/
theorem C9_bgra_placeholder_not_transparent_magenta :
    (HardpolyRenderer.init.GetTextureBgra sampleGlobals none).2.gpuTextures[
        (HardpolyRenderer.init.GetTextureBgra sampleGlobals none).1]? =
      some { Width := 1, Height := 1, Mipmap := false, Format := .RGBA8,
             Pixels := [0xff00ffff] } ∧
    (0xff00ffff : Nat) ≠ packRGBA 255 0 255 0 ∧
    (0xff00ffff : Nat) / 2 ^ 24 % 256 = 255 ∧
    (0xff00ffff : Nat) / 2 ^ 8 % 256 = 255 ∧
    (0xff00ffff : Nat) / 2 ^ 16 % 256 = 0 ∧
    ((HardpolyRenderer.init.GetTextureBgra sampleGlobals none).2.GetTexturePal none).2.gpuTextures[
        ((HardpolyRenderer.init.GetTextureBgra sampleGlobals none).2.GetTexturePal none).1]? =
      some { Width := 1, Height := 1, Mipmap := false, Format := .RGBA8,
             Pixels := [0xff00ffff] } := by
  decide

end Caches

/-! ## The blend-mode tables and the alpha blend function -/

section BlendClaims

/-- C11: `GetSamplerMode` and `GetBlendSetter` are total over the 24 blend modes.  Both tables
have 24 entries, the blend modes have exactly the integer values `0 .. 23`, so for every blend
mode the lookup index is in bounds of both tables; `GetSamplerMode` returns a value in
`0 .. 7` (the cases of the `switch (Mode)` of the fragment shader) and `GetBlendSetter` one of
the eight setters; every value `0 .. 7` and every one of the eight setters is the result for
some blend mode. -/
theorem C11_blend_tables_total :
    modes.length = 24 ∧ blendsetters.length = 24 ∧
    TriBlendMode.all.map TriBlendMode.toNat = List.range 24 ∧
    (∀ b : TriBlendMode,
      b ∈ TriBlendMode.all ∧ b.toNat < 24 ∧
      modes[b.toNat]? = some (GetSamplerMode b) ∧
      blendsetters[b.toNat]? = some (GetBlendSetter b) ∧
      0 ≤ GetSamplerMode b ∧ GetSamplerMode b ≤ 7) ∧
    (∀ m : Fin 8, ∃ b : TriBlendMode, GetSamplerMode b = (m.val : Int)) ∧
    (∀ f : BlendSetterFunc, ∃ b : TriBlendMode, GetBlendSetter b = f) := by
  refine ⟨by decide, by decide, by decide, ?_, ?_, ?_⟩
  · intro b
    cases b <;> decide
  · have h : ∀ m : Fin 8, ∃ b ∈ TriBlendMode.all, GetSamplerMode b = (m.val : Int) := by decide
    intro m
    obtain ⟨b, -, hb⟩ := h m
    exact ⟨b, hb⟩
  · have h : ∀ f : BlendSetterFunc, ∃ b ∈ TriBlendMode.all, GetBlendSetter b = f := by
      intro f
      cases f <;> decide
    intro f
    obtain ⟨b, -, hb⟩ := h f
    exact ⟨b, hb⟩

end BlendClaims

/-! ## The frame uniforms -/

section FrameUniforms

variable (G : Globals)

@[simp] theorem frameUploads_nil : frameUploads [] = [] := rfl

theorem frameUploads_append (l₁ l₂ : List GPUCommand) :
    frameUploads (l₁ ++ l₂) = frameUploads l₁ ++ frameUploads l₂ := by
  simp [frameUploads, List.filterMap_append]

theorem frameUploads_cons (c : GPUCommand) (l : List GPUCommand) :
    frameUploads (c :: l) =
      (match c with
        | .UploadFrameUniforms slot => [slot]
        | _ => []) ++ frameUploads l := by
  cases c <;> rfl

theorem frameUploads_blend (f : BlendSetterFunc) (a b : Int) :
    frameUploads (f.call a b) = [] := by
  cases f <;> rfl

theorem frameState_emit (s : HardpolyRenderer) (cmds : List GPUCommand)
    (h : frameUploads cmds = []) : (s.emit cmds).frameState = s.frameState := by
  simp [HardpolyRenderer.frameState, HardpolyRenderer.emit, frameUploads_append, h]

@[simp] theorem frameState_GetTranslationTexture (s : HardpolyRenderer) (t : Option BytePtr) :
    (s.GetTranslationTexture t).2.frameState = s.frameState := by
  unfold HardpolyRenderer.GetTranslationTexture
  split <;> rfl

@[simp] theorem frameState_GetEngineTexturePal (s : HardpolyRenderer) (p : Option BytePtr)
    (w h : Int) : (s.GetEngineTexturePal p w h).2.frameState = s.frameState := by
  unfold HardpolyRenderer.GetEngineTexturePal
  split
  · rfl
  · cases p <;> rfl

@[simp] theorem frameState_GetColormapTexture (s : HardpolyRenderer) (p : Option BytePtr) :
    (s.GetColormapTexture G p).2.frameState = s.frameState := by
  unfold HardpolyRenderer.GetColormapTexture
  split <;> rfl

@[simp] theorem frameState_GetTexturePal (s : HardpolyRenderer) (t : Option FTexture) :
    (s.GetTexturePal t).2.frameState = s.frameState := by
  unfold HardpolyRenderer.GetTexturePal
  split
  · rfl
  · cases t <;> rfl

theorem FrameStep.same (s : HardpolyRenderer) : FrameStep s s := Or.inl rfl

theorem FrameStep.of_eq {s s' : HardpolyRenderer} (h : s'.frameState = s.frameState) :
    FrameStep s s' := Or.inl h

/-- A step followed by a change that leaves the frame-uniform manager alone. -/
theorem FrameStep.then_quiet {s s' s'' : HardpolyRenderer} (h : FrameStep s s')
    (hq : s''.frameState = s'.frameState) : FrameStep s s'' := by
  rcases h with h | ⟨hd, h⟩
  · exact Or.inl (hq.trans h)
  · exact Or.inr ⟨hd, hq.trans h⟩

/-- A change that leaves the frame-uniform manager alone followed by a step. -/
theorem FrameStep.after_quiet {s s' s'' : HardpolyRenderer}
    (hq : s'.frameState = s.frameState) (h : FrameStep s' s'') : FrameStep s s'' := by
  have hd : s'.mFrameUniformsDirty = s.mFrameUniformsDirty := congrArg (fun x => x.1) hq
  have hi : s'.mCurrentFrameUniforms = s.mCurrentFrameUniforms := congrArg (fun x => x.2.1) hq
  have hu : frameUploads s'.log = frameUploads s.log := congrArg (fun x => x.2.2) hq
  rcases h with h | ⟨hd', h⟩
  · exact Or.inl (h.trans hq)
  · exact Or.inr ⟨hd ▸ hd', by rw [h, hi, hu]⟩

/-- Steps compose: after an upload the manager is clean, so a second upload cannot follow. -/
theorem FrameStep.compose {s s' s'' : HardpolyRenderer} (h₁ : FrameStep s s')
    (h₂ : FrameStep s' s'') : FrameStep s s'' := by
  rcases h₁ with h₁ | ⟨hd, h₁⟩
  · exact FrameStep.after_quiet h₁ h₂
  · rcases h₂ with h₂ | ⟨hd', -⟩
    · exact Or.inr ⟨hd, h₂.trans h₁⟩
    · have : s'.mFrameUniformsDirty = false := congrArg (fun x => x.1) h₁
      rw [this] at hd'
      cases hd'

/-- The first `UpdateFrameUniforms` call on a dirty manager moves on to slot
`(old + 1) % 3`, uploads to it and clears the flag; on a clean manager the call does nothing. -/
theorem UpdateFrameUniforms_spec (s : HardpolyRenderer) :
    (s.mFrameUniformsDirty = true →
      s.UpdateFrameUniforms.mFrameUniformsDirty = false ∧
      s.UpdateFrameUniforms.mCurrentFrameUniforms = Int.tmod (s.mCurrentFrameUniforms + 1) 3 ∧
      s.UpdateFrameUniforms.log =
        s.log ++ [.UploadFrameUniforms (Int.tmod (s.mCurrentFrameUniforms + 1) 3)]) ∧
    (s.mFrameUniformsDirty = false → s.UpdateFrameUniforms = s) := by
  constructor
  · intro h
    unfold HardpolyRenderer.UpdateFrameUniforms
    rw [if_pos h]
    dsimp only
    split <;> exact ⟨rfl, rfl, rfl⟩
  · intro h
    unfold HardpolyRenderer.UpdateFrameUniforms
    simp [h]

theorem FrameStep_UpdateFrameUniforms (s : HardpolyRenderer) :
    FrameStep s s.UpdateFrameUniforms := by
  cases hd : s.mFrameUniformsDirty with
  | false => rw [(UpdateFrameUniforms_spec s).2 hd]; exact FrameStep.same s
  | true =>
    obtain ⟨h₁, h₂, h₃⟩ := (UpdateFrameUniforms_spec s).1 hd
    refine Or.inr ⟨hd, ?_⟩
    simp [HardpolyRenderer.frameState, h₁, h₂, h₃, frameUploads_append, frameUploads_cons]

theorem frameState_RenderRun (s : HardpolyRenderer) (run : DrawRun) :
    (s.RenderRun G run).frameState = s.frameState := by
  unfold HardpolyRenderer.RenderRun
  cases run.Texture <;> cases run.Pixels <;> cases run.Translation <;>
    simp [frameState_emit, frameUploads_cons, frameUploads_blend]

theorem frameState_foldl_RenderRun (runs : List DrawRun) (s : HardpolyRenderer) :
    (runs.foldl (HardpolyRenderer.RenderRun G) s).frameState = s.frameState := by
  induction runs generalizing s with
  | nil => rfl
  | cons run rest ih => rw [List.foldl_cons, ih, frameState_RenderRun]

theorem FrameStep_RenderBatch (s : HardpolyRenderer) (batch : Nat) :
    FrameStep s (s.RenderBatch G batch) := by
  refine (FrameStep_UpdateFrameUniforms s).then_quiet ?_
  unfold HardpolyRenderer.RenderBatch
  dsimp only
  rw [frameState_emit _ _ (by simp [frameUploads_cons]), frameState_foldl_RenderRun,
    frameState_emit _ _ (by simp [frameUploads_cons])]
  rfl

theorem frameState_unmapVertices (s : HardpolyRenderer) :
    (DrawBatcher.unmapVertices s).frameState = s.frameState := by
  unfold DrawBatcher.unmapVertices
  cases s.mDrawBatcher.mVertices with
  | none => rfl
  | some v =>
    cases s.mDrawBatcher.mCurrentBatch with
    | none => rfl
    | some b =>
      simp [HardpolyRenderer.frameState, HardpolyRenderer.emit, frameUploads_append,
        frameUploads_cons]

theorem FrameStep_Flush (s : HardpolyRenderer) : FrameStep s (DrawBatcher.Flush G s) := by
  have q := frameState_unmapVertices s
  unfold DrawBatcher.Flush
  dsimp only
  generalize DrawBatcher.unmapVertices s = s₁ at q ⊢
  refine @FrameStep.then_quiet s (match s₁.mDrawBatcher.mCurrentBatch with
      | some b => if (s₁.mDrawBatcher.batchRuns b).isEmpty then s₁ else s₁.RenderBatch G b
      | none => s₁) _ ?_ rfl
  refine FrameStep.after_quiet q ?_
  split
  · split
    · exact FrameStep.same _
    · exact FrameStep_RenderBatch G _ _
  · exact FrameStep.same _

theorem frameState_acquire (s : HardpolyRenderer) :
    (DrawBatcher.acquire s).frameState = s.frameState := by
  unfold DrawBatcher.acquire
  dsimp only
  split <;>
    simp [HardpolyRenderer.frameState, frameUploads_append, frameUploads_cons]

theorem FrameStep_GetVertices (s : HardpolyRenderer) (n : Int) :
    FrameStep s (DrawBatcher.GetVertices G s n) := by
  unfold DrawBatcher.GetVertices
  dsimp only
  have h : FrameStep s (if s.mDrawBatcher.mNextVertex + n > G.MaxVertices then
      DrawBatcher.Flush G s else s) := by
    split
    · exact FrameStep_Flush G s
    · exact FrameStep.same s
  generalize (if s.mDrawBatcher.mNextVertex + n > G.MaxVertices then
      DrawBatcher.Flush G s else s) = s₁ at h ⊢
  split
  · exact h.then_quiet (frameState_acquire s₁)
  · exact h

theorem FrameStep_DrawArray (s : HardpolyRenderer) (a : PolyDrawArgs) :
    FrameStep s (s.DrawArray G a) := by
  by_cases hacc : accepted a = true
  · rw [DrawArray_accepted G s a hacc]
    exact (FrameStep_GetVertices G s a.VertexCount).then_quiet rfl
  · rw [DrawArray_rejected G s a (by simpa using hacc)]
    exact FrameStep.same s

theorem FrameStep_DrawRect (s : HardpolyRenderer) (args : RectDrawArgs) :
    FrameStep s (s.DrawRect G args) := by
  refine (FrameStep_UpdateFrameUniforms s).then_quiet ?_
  unfold HardpolyRenderer.DrawRect
  simp [frameState_emit, frameUploads_cons]
  rfl

theorem frameState_Begin (s : HardpolyRenderer) :
    (s.Begin G).frameState = (true, s.mCurrentFrameUniforms, frameUploads s.log) := by
  unfold HardpolyRenderer.Begin HardpolyRenderer.CreateSamplers HardpolyRenderer.CompileShaders
    HardpolyRenderer.SetupFramebuffer
  dsimp only
  split <;>
    simp [HardpolyRenderer.frameState, HardpolyRenderer.emit, frameUploads_append,
      frameUploads_cons]

/-- Every public operation other than `Begin` uploads the frame uniforms at most once, and
only when they are dirty. -/
theorem FrameStep_step (s : HardpolyRenderer) (op : Op) (hop : op ≠ .Begin) :
    FrameStep s (s.step G op) := by
  cases op with
  | Begin => exact absurd rfl hop
  | End =>
    exact (FrameStep_Flush G s).then_quiet
      (frameState_emit _ _ (by simp [frameUploads_cons]))
  | ClearBuffers =>
    exact (FrameStep_Flush G s).then_quiet
      (frameState_emit _ _ (by simp [frameUploads_cons]))
  | SetViewport x y w h =>
    exact (FrameStep_Flush G s).then_quiet
      (frameState_emit _ _ (by simp [frameUploads_cons]))
  | DrawArray a => exact FrameStep_DrawArray G s a
  | DrawRect args => exact FrameStep_DrawRect G s args

theorem FrameStep_foldl_step (ops : List Op) (s : HardpolyRenderer)
    (hops : Op.Begin ∉ ops) : FrameStep s (ops.foldl (HardpolyRenderer.step G) s) := by
  induction ops generalizing s with
  | nil => exact FrameStep.same s
  | cons op rest ih =>
    rw [List.foldl_cons]
    exact (FrameStep_step G s op (fun h => hops (h ▸ List.mem_cons_self _ _))).compose
      (ih _ (fun h => hops (List.mem_cons_of_mem _ h)))

/-- The slot index stays in `{0, 1, 2}` under every public operation. -/
theorem slot_step (s : HardpolyRenderer) (op : Op)
    (h : 0 ≤ s.mCurrentFrameUniforms ∧ s.mCurrentFrameUniforms < 3) :
    0 ≤ (s.step G op).mCurrentFrameUniforms ∧ (s.step G op).mCurrentFrameUniforms < 3 := by
  by_cases hop : op = .Begin
  · subst hop
    have := congrArg (fun x => x.2.1) (frameState_Begin G s)
    simp only [HardpolyRenderer.frameState] at this
    rw [HardpolyRenderer.step, this]
    exact h
  · rcases FrameStep_step G s op hop with hq | ⟨-, hq⟩
    · have := congrArg (fun x => x.2.1) hq
      simp only [HardpolyRenderer.frameState] at this
      rw [this]
      exact h
    · have := congrArg (fun x => x.2.1) hq
      simp only [HardpolyRenderer.frameState] at this
      rw [this]
      exact ⟨Int.tmod_nonneg _ (by omega), Int.tmod_lt_of_pos _ (by decide)⟩

theorem slot_foldl_step (ops : List Op) (s : HardpolyRenderer)
    (h : 0 ≤ s.mCurrentFrameUniforms ∧ s.mCurrentFrameUniforms < 3) :
    0 ≤ (ops.foldl (HardpolyRenderer.step G) s).mCurrentFrameUniforms ∧
      (ops.foldl (HardpolyRenderer.step G) s).mCurrentFrameUniforms < 3 := by
  induction ops generalizing s with
  | nil => exact h
  | cons op rest ih => exact ih _ (slot_step G s op h)

end FrameUniforms

section FrameUniformsClaim

/-- C13: the frame uniforms are uploaded at most once per frame, on the first
`UpdateFrameUniforms` call after `Begin`.  `Begin` marks them dirty without uploading or
moving the slot.  After any sequence of operations that follows it and contains no further
`Begin`, either nothing was uploaded (still dirty, slot unchanged) or exactly one upload was
issued, to slot `(old + 1) % 3`, which is then the current slot, and the flag is clear.  An
`UpdateFrameUniforms` call on a dirty manager is that upload; on a clean manager it changes
nothing, and a clean manager stays clean, with no further upload, until the next `Begin`.
The slot index stays in `{0, 1, 2}`, in particular in every state reached from the fresh
renderer. -/
theorem C13_frame_uniforms_once_per_frame (G : Globals) (s : HardpolyRenderer) (ops : List Op)
    (hops : Op.Begin ∉ ops)
    (hslot : 0 ≤ s.mCurrentFrameUniforms ∧ s.mCurrentFrameUniforms < 3) :
    (s.Begin G).frameState = (true, s.mCurrentFrameUniforms, frameUploads s.log) ∧
    ((ops.foldl (HardpolyRenderer.step G) (s.Begin G)).frameState =
        (true, s.mCurrentFrameUniforms, frameUploads s.log) ∨
      (ops.foldl (HardpolyRenderer.step G) (s.Begin G)).frameState =
        (false, Int.tmod (s.mCurrentFrameUniforms + 1) 3,
          frameUploads s.log ++ [Int.tmod (s.mCurrentFrameUniforms + 1) 3])) ∧
    (∀ t : HardpolyRenderer, t.mFrameUniformsDirty = true →
      t.UpdateFrameUniforms.mFrameUniformsDirty = false ∧
      t.UpdateFrameUniforms.mCurrentFrameUniforms = Int.tmod (t.mCurrentFrameUniforms + 1) 3 ∧
      t.UpdateFrameUniforms.log =
        t.log ++ [.UploadFrameUniforms (Int.tmod (t.mCurrentFrameUniforms + 1) 3)]) ∧
    (∀ t : HardpolyRenderer, t.mFrameUniformsDirty = false → t.UpdateFrameUniforms = t) ∧
    (∀ (t : HardpolyRenderer) (more : List Op), Op.Begin ∉ more →
      t.mFrameUniformsDirty = false →
      (more.foldl (HardpolyRenderer.step G) t).frameState = t.frameState) ∧
    (0 ≤ (ops.foldl (HardpolyRenderer.step G) (s.Begin G)).mCurrentFrameUniforms ∧
      (ops.foldl (HardpolyRenderer.step G) (s.Begin G)).mCurrentFrameUniforms < 3) ∧
    (∀ all : List Op,
      0 ≤ (all.foldl (HardpolyRenderer.step G) HardpolyRenderer.init).mCurrentFrameUniforms ∧
      (all.foldl (HardpolyRenderer.step G) HardpolyRenderer.init).mCurrentFrameUniforms < 3) := by
  have hB := frameState_Begin G s
  have hBd : (s.Begin G).mFrameUniformsDirty = true := congrArg (fun x => x.1) hB
  have hBi : (s.Begin G).mCurrentFrameUniforms = s.mCurrentFrameUniforms :=
    congrArg (fun x => x.2.1) hB
  have hBu : frameUploads (s.Begin G).log = frameUploads s.log := congrArg (fun x => x.2.2) hB
  refine ⟨hB, ?_, fun t => (UpdateFrameUniforms_spec t).1, fun t => (UpdateFrameUniforms_spec t).2,
    ?_, ?_, ?_⟩
  · rcases FrameStep_foldl_step G ops (s.Begin G) hops with h | ⟨-, h⟩
    · exact Or.inl (h.trans hB)
    · right
      rw [h, hBi, hBu]
  · intro t more hmore hclean
    rcases FrameStep_foldl_step G more t hmore with h | ⟨hd, -⟩
    · exact h
    · rw [hclean] at hd
      cases hd
  · exact slot_foldl_step G ops (s.Begin G) (by rw [hBi]; exact hslot)
  · intro all
    exact slot_foldl_step G all HardpolyRenderer.init (by decide)

/-- C13, an instance: a first frame with a triangle, a rectangle and `End`. -/
theorem C13_frame_uniforms_once_per_frame_witness :
    (HardpolyRenderer.init.Begin sampleGlobals).frameState =
      (true, HardpolyRenderer.init.mCurrentFrameUniforms,
        frameUploads HardpolyRenderer.init.log) :=
  (C13_frame_uniforms_once_per_frame sampleGlobals HardpolyRenderer.init
    [.DrawArray (triangles 3), .DrawRect sampleRect, .End] (by decide) (by decide)).1

end FrameUniformsClaim

/-! ## The batch pools -/

section PoolClaims

variable (G : Globals)

/-- The three ways `GetVertices` can go. -/
theorem GetVertices_cases (s : HardpolyRenderer) (n : Int) :
    ((∃ v, s.mDrawBatcher.mVertices = some v) ∧ DrawBatcher.GetVertices G s n = s) ∨
    (s.mDrawBatcher.mVertices = none ∧ DrawBatcher.GetVertices G s n = DrawBatcher.acquire s) ∨
    DrawBatcher.GetVertices G s n = DrawBatcher.acquire (DrawBatcher.Flush G s) := by
  by_cases hover : G.MaxVertices < s.mDrawBatcher.mNextVertex + n
  · exact Or.inr (Or.inr (GetVertices_overflow G s n hover))
  · cases hv : s.mDrawBatcher.mVertices with
    | none => exact Or.inr (Or.inl ⟨rfl, GetVertices_fit_unmapped G s n (by omega) hv⟩)
    | some v => exact Or.inl ⟨⟨v, rfl⟩, GetVertices_fit_mapped G s n (by omega) hv⟩

theorem acquire_mCurrentFrameBatches (h : HardpolyRenderer) :
    (DrawBatcher.acquire h).mDrawBatcher.mCurrentFrameBatches =
      if h.mDrawBatcher.mNextBatch = h.mDrawBatcher.mCurrentFrameBatches.length then
        h.mDrawBatcher.mCurrentFrameBatches ++ [h.mDrawBatcher.heap.length]
      else h.mDrawBatcher.mCurrentFrameBatches := by
  unfold DrawBatcher.acquire
  by_cases hfull : h.mDrawBatcher.mNextBatch = h.mDrawBatcher.mCurrentFrameBatches.length
  · simp only [hfull, if_true]
    split <;> rfl
  · simp only [hfull, if_false]
    split <;> rfl

/-- Taking a batch keeps the pool invariant; the current-frame pool grows by at most the one
batch handed out, and only up to the number of batches handed out in this frame. -/
theorem acquire_pools (h : HardpolyRenderer) (hp : h.mDrawBatcher.Pools) :
    (DrawBatcher.acquire h).mDrawBatcher.Pools ∧
    h.mDrawBatcher.mCurrentFrameBatches <+: (DrawBatcher.acquire h).mDrawBatcher.mCurrentFrameBatches ∧
    (DrawBatcher.acquire h).mDrawBatcher.mLastFrameBatches = h.mDrawBatcher.mLastFrameBatches ∧
    (DrawBatcher.acquire h).mDrawBatcher.mNextBatch = h.mDrawBatcher.mNextBatch + 1 ∧
    (DrawBatcher.acquire h).mDrawBatcher.mCurrentFrameBatches.length ≤
      max h.mDrawBatcher.mCurrentFrameBatches.length (h.mDrawBatcher.mNextBatch + 1) ∧
    ∃ b, (DrawBatcher.acquire h).mDrawBatcher.mCurrentBatch = some b ∧
      (DrawBatcher.acquire h).mDrawBatcher.mCurrentFrameBatches[h.mDrawBatcher.mNextBatch]? =
        some b := by
  obtain ⟨hle, hvalid, hvalidL, hnd, hndL, hdis⟩ := hp
  have hsize : (DrawBatcher.acquire h).mDrawBatcher.mCurrentFrameBatches.length ≤
      max h.mDrawBatcher.mCurrentFrameBatches.length (h.mDrawBatcher.mNextBatch + 1) := by
    rw [acquire_mCurrentFrameBatches]
    split
    · rename_i hfull
      simp [hfull]
    · exact le_max_left _ _
  obtain ⟨b, cur, heap, hd, -, hslot, hheap, hlen, hcases⟩ := acquire_spec h hle hvalid
  have hcurlen : h.mDrawBatcher.mNextBatch < cur.length :=
    (List.getElem?_eq_some.mp hslot).1
  have hcurvalid : ∀ id ∈ cur, id < heap.length := by
    intro id hid
    rcases hcases with rfl | ⟨rfl, hlt⟩
    · exact lt_of_lt_of_le (hvalid id hid) hlen
    · rcases List.mem_append.mp hid with h1 | h1
      · exact lt_of_lt_of_le (hvalid id h1) hlen
      · simp at h1
        omega
  have hlastvalid : ∀ id ∈ h.mDrawBatcher.mLastFrameBatches, id < heap.length :=
    fun id hid => lt_of_lt_of_le (hvalidL id hid) hlen
  have hcurnd : cur.Nodup := by
    rcases hcases with rfl | ⟨rfl, -⟩
    · exact hnd
    · refine List.nodup_append.mpr ⟨hnd, List.nodup_singleton _, ?_⟩
      intro x hx hx'
      simp at hx'
      have := hvalid x hx
      omega
  have hcurdis : cur.Disjoint h.mDrawBatcher.mLastFrameBatches := by
    rcases hcases with rfl | ⟨rfl, -⟩
    · exact hdis
    · refine List.disjoint_append_left.mpr ⟨hdis, ?_⟩
      intro x hx hx'
      simp at hx
      have := hvalidL x hx'
      omega
  have hpre : h.mDrawBatcher.mCurrentFrameBatches <+: cur := by
    rcases hcases with rfl | ⟨rfl, -⟩
    · exact List.prefix_refl _
    · exact List.prefix_append _ _
  rw [hd] at hsize ⊢
  exact ⟨⟨hcurlen, hcurvalid, hlastvalid, hcurnd, hndL, hcurdis⟩, hpre, rfl, rfl, hsize, b, rfl,
    hslot⟩

theorem Pools_Flush (s : HardpolyRenderer) (hp : s.mDrawBatcher.Pools) :
    (DrawBatcher.Flush G s).mDrawBatcher.Pools := by
  rw [Flush_batcher]
  exact hp

theorem Pools_NextFrame (d : DrawBatcher) (hp : d.Pools) : d.NextFrame.Pools := by
  obtain ⟨-, hvalid, hvalidL, hnd, hndL, hdis⟩ := hp
  exact ⟨Nat.zero_le _, hvalidL, hvalid, hndL, hnd, List.disjoint_comm.mp hdis⟩

/-- One batcher step: the invariant is kept; `NextFrame` exchanges the two pools as they are,
any other step leaves the last-frame pool alone and at most appends to the current-frame
pool, whose size stays within the larger of its old size and the batches used so far in this
frame. -/
theorem batcherStep_pools (s : HardpolyRenderer) (step : BatcherStep)
    (hp : s.mDrawBatcher.Pools) :
    (s.batcherStep G step).mDrawBatcher.Pools ∧
    (step = .NextFrame →
      (s.batcherStep G step).mDrawBatcher.mCurrentFrameBatches =
        s.mDrawBatcher.mLastFrameBatches ∧
      (s.batcherStep G step).mDrawBatcher.mLastFrameBatches =
        s.mDrawBatcher.mCurrentFrameBatches) ∧
    (step ≠ .NextFrame →
      s.mDrawBatcher.mCurrentFrameBatches <+:
        (s.batcherStep G step).mDrawBatcher.mCurrentFrameBatches ∧
      (s.batcherStep G step).mDrawBatcher.mLastFrameBatches = s.mDrawBatcher.mLastFrameBatches ∧
      (s.batcherStep G step).mDrawBatcher.mCurrentFrameBatches.length ≤
        max s.mDrawBatcher.mCurrentFrameBatches.length
          (s.batcherStep G step).mDrawBatcher.mNextBatch) := by
  cases step with
  | NextFrame =>
    exact ⟨Pools_NextFrame _ hp, fun _ => ⟨rfl, rfl⟩, fun h => absurd rfl h⟩
  | Flush =>
    refine ⟨Pools_Flush G s hp, fun h => BatcherStep.noConfusion h, fun _ => ?_⟩
    simp only [HardpolyRenderer.batcherStep, Flush_batcher]
    exact ⟨List.prefix_refl _, trivial, le_max_left _ _⟩
  | GetVertices n =>
    refine ⟨?_, fun h => BatcherStep.noConfusion h, fun _ => ?_⟩
    · simp only [HardpolyRenderer.batcherStep]
      rcases GetVertices_cases G s n with ⟨-, h⟩ | ⟨-, h⟩ | h
      · rw [h]; exact hp
      · rw [h]; exact (acquire_pools s hp).1
      · rw [h]; exact (acquire_pools _ (Pools_Flush G s hp)).1
    · simp only [HardpolyRenderer.batcherStep]
      rcases GetVertices_cases G s n with ⟨-, h⟩ | ⟨-, h⟩ | h
      · rw [h]; exact ⟨List.prefix_refl _, rfl, le_max_left _ _⟩
      · rw [h]
        obtain ⟨-, h2, h3, h4, h5, -⟩ := acquire_pools s hp
        exact ⟨h2, h3, by rw [h4]; exact h5⟩
      · rw [h]
        obtain ⟨-, h2, h3, h4, h5, -⟩ := acquire_pools _ (Pools_Flush G s hp)
        simp only [Flush_batcher] at h2 h3 h4 h5
        exact ⟨h2, h3, by rw [h4]; exact h5⟩

theorem batchesUsedMax_ge (s : HardpolyRenderer) (steps : List BatcherStep) :
    s.mDrawBatcher.mNextBatch ≤ batchesUsedMax G s steps := by
  cases steps with
  | nil => exact le_refl _
  | cons step rest => exact le_max_left _ _

/-- Along any sequence of batcher steps the pool invariant is kept and both pools stay within
the largest number of batches used in a frame (or the bound `H` they started within). -/
theorem foldl_batcherStep_pools (steps : List BatcherStep) (s : HardpolyRenderer) (H : Nat)
    (hp : s.mDrawBatcher.Pools)
    (hc : s.mDrawBatcher.mCurrentFrameBatches.length ≤ H)
    (hl : s.mDrawBatcher.mLastFrameBatches.length ≤ H) :
    (steps.foldl (HardpolyRenderer.batcherStep G) s).mDrawBatcher.Pools ∧
    (steps.foldl (HardpolyRenderer.batcherStep G) s).mDrawBatcher.mCurrentFrameBatches.length ≤
      max H (batchesUsedMax G s steps) ∧
    (steps.foldl (HardpolyRenderer.batcherStep G) s).mDrawBatcher.mLastFrameBatches.length ≤
      max H (batchesUsedMax G s steps) := by
  induction steps generalizing s H with
  | nil => exact ⟨hp, le_trans hc (le_max_left _ _), le_trans hl (le_max_left _ _)⟩
  | cons step rest ih =>
    obtain ⟨hp₁, hswap, hgrow⟩ := batcherStep_pools G s step hp
    have hge := batchesUsedMax_ge G (s.batcherStep G step) rest
    have hsizes : (s.batcherStep G step).mDrawBatcher.mCurrentFrameBatches.length ≤
          max H (s.batcherStep G step).mDrawBatcher.mNextBatch ∧
        (s.batcherStep G step).mDrawBatcher.mLastFrameBatches.length ≤
          max H (s.batcherStep G step).mDrawBatcher.mNextBatch := by
      by_cases hstep : step = .NextFrame
      · obtain ⟨e₁, e₂⟩ := hswap hstep
        rw [e₁, e₂]
        exact ⟨le_trans hl (le_max_left _ _), le_trans hc (le_max_left _ _)⟩
      · obtain ⟨-, e₂, e₃⟩ := hgrow hstep
        rw [e₂]
        refine ⟨le_trans e₃ ?_, le_trans hl (le_max_left _ _)⟩
        exact max_le (le_trans hc (le_max_left _ _)) (le_max_right _ _)
    obtain ⟨i₁, i₂, i₃⟩ := ih (s.batcherStep G step) _ hp₁ hsizes.1 hsizes.2
    rw [List.foldl_cons]
    simp only [batchesUsedMax]
    refine ⟨i₁, le_trans i₂ ?_, le_trans i₃ ?_⟩ <;>
    · simp only [max_le_iff, le_max_iff]
      omega

theorem Pools_init : HardpolyRenderer.init.mDrawBatcher.Pools := by
  simp [DrawBatcher.Pools, HardpolyRenderer.init, DrawBatcher.init]

/-- C12: for every sequence of `NextFrame`, `GetVertices` and `Flush` steps performed on a
fresh renderer, in the state reached: `mNextBatch` is at most the size of the current-frame
pool, so the pool slot `GetVertices` takes exists; neither pool holds a batch twice and no
batch is in both pools; and both pools have at most as many batches as the largest number of
batches used in a single frame so far.  Under one more step no pool shrinks: `NextFrame`
exchanges the two pools as they are, and any other step leaves the last-frame pool as it is
and at most appends to the current-frame pool. -/
theorem C12_batch_pools (G : Globals) (steps : List BatcherStep) (step : BatcherStep) :
    (batcherAfter G steps).mDrawBatcher.mNextBatch ≤
      (batcherAfter G steps).mDrawBatcher.mCurrentFrameBatches.length ∧
    (∃ b, (DrawBatcher.acquire (batcherAfter G steps)).mDrawBatcher.mCurrentBatch = some b ∧
      (DrawBatcher.acquire (batcherAfter G steps)).mDrawBatcher.mCurrentFrameBatches[
        (batcherAfter G steps).mDrawBatcher.mNextBatch]? = some b) ∧
    (batcherAfter G steps).mDrawBatcher.mCurrentFrameBatches.Nodup ∧
    (batcherAfter G steps).mDrawBatcher.mLastFrameBatches.Nodup ∧
    (batcherAfter G steps).mDrawBatcher.mCurrentFrameBatches.Disjoint
      (batcherAfter G steps).mDrawBatcher.mLastFrameBatches ∧
    (batcherAfter G steps).mDrawBatcher.mCurrentFrameBatches.length ≤
      batchesUsedMax G HardpolyRenderer.init steps ∧
    (batcherAfter G steps).mDrawBatcher.mLastFrameBatches.length ≤
      batchesUsedMax G HardpolyRenderer.init steps ∧
    (step = .NextFrame →
      ((batcherAfter G steps).batcherStep G step).mDrawBatcher.mCurrentFrameBatches =
        (batcherAfter G steps).mDrawBatcher.mLastFrameBatches ∧
      ((batcherAfter G steps).batcherStep G step).mDrawBatcher.mLastFrameBatches =
        (batcherAfter G steps).mDrawBatcher.mCurrentFrameBatches) ∧
    (step ≠ .NextFrame →
      (batcherAfter G steps).mDrawBatcher.mCurrentFrameBatches <+:
        ((batcherAfter G steps).batcherStep G step).mDrawBatcher.mCurrentFrameBatches ∧
      ((batcherAfter G steps).batcherStep G step).mDrawBatcher.mLastFrameBatches =
        (batcherAfter G steps).mDrawBatcher.mLastFrameBatches) := by
  obtain ⟨hp, hc, hl⟩ := foldl_batcherStep_pools G steps HardpolyRenderer.init 0 Pools_init
    (by simp [HardpolyRenderer.init, DrawBatcher.init])
    (by simp [HardpolyRenderer.init, DrawBatcher.init])
  rw [Nat.zero_max] at hc hl
  obtain ⟨-, hswap, hgrow⟩ := batcherStep_pools G (batcherAfter G steps) step hp
  obtain ⟨-, -, -, -, -, hacq⟩ := acquire_pools (batcherAfter G steps) hp
  exact ⟨hp.1, hacq, hp.2.2.2.1, hp.2.2.2.2.1, hp.2.2.2.2.2, hc, hl, hswap,
    fun h => ⟨(hgrow h).1, (hgrow h).2.1⟩⟩

end PoolClaims

/-! ## The runs of the current batch tile the written vertices -/

section Tiling

variable (G : Globals)

theorem tilesFromZero_of_consecutiveFrom (runs : List DrawRun) (start : Int)
    (h : consecutiveFrom runs start) :
    (∀ first ∈ runs.head?, first.Start = start) ∧
    runs.Chain' (fun previous next => next.Start = previous.Start + previous.NumVertices) := by
  induction runs generalizing start with
  | nil => exact ⟨fun r hr => by simp at hr, List.chain'_nil⟩
  | cons run rest ih =>
    obtain ⟨h₁, h₂⟩ := h
    obtain ⟨i₁, i₂⟩ := ih _ h₂
    refine ⟨fun r hr => ?_, List.chain'_cons'.mpr ⟨fun y hy => ?_, i₂⟩⟩
    · simp only [List.head?_cons, Option.mem_def, Option.some.injEq] at hr
      rw [← hr]; exact h₁
    · rw [i₁ y hy, h₁]

theorem consecutiveFrom_append (runs : List DrawRun) (run : DrawRun) (start : Int)
    (h : consecutiveFrom runs start) (hrun : run.Start = start + totalVertices runs) :
    consecutiveFrom (runs ++ [run]) start := by
  induction runs generalizing start with
  | nil =>
    simp only [totalVertices, List.map_nil, List.sum_nil, add_zero] at hrun
    exact ⟨hrun, trivial⟩
  | cons r rest ih =>
    obtain ⟨h₁, h₂⟩ := h
    refine ⟨h₁, ih _ h₂ ?_⟩
    simp only [totalVertices, List.map_cons, List.sum_cons] at hrun ⊢
    omega

theorem totalVertices_append (runs : List DrawRun) (run : DrawRun) :
    totalVertices (runs ++ [run]) = totalVertices runs + run.NumVertices := by
  simp [totalVertices, List.sum_append]

theorem Tiled_init : HardpolyRenderer.init.mDrawBatcher.Tiled := by
  simp [DrawBatcher.Tiled, HardpolyRenderer.init, DrawBatcher.init]

theorem Tiled_Flush (s : HardpolyRenderer) (ht : s.mDrawBatcher.Tiled) :
    (DrawBatcher.Flush G s).mDrawBatcher.Tiled := by
  obtain ⟨hle, hvalid, hvalidL, -⟩ := ht
  rw [Flush_batcher]
  exact ⟨hle, hvalid, hvalidL, rfl, rfl⟩

theorem Tiled_NextFrame (d : DrawBatcher) (ht : d.Tiled) : d.NextFrame.Tiled := by
  obtain ⟨-, hvalid, hvalidL, hcur⟩ := ht
  exact ⟨Nat.zero_le _, hvalidL, hvalid, hcur⟩

/-- Recording a run that starts at the cursor in the current batch keeps the tiling. -/
theorem Tiled_push_current (s : HardpolyRenderer) (run : DrawRun)
    (ht : s.mDrawBatcher.Tiled) {v : Nat} (hv : s.mDrawBatcher.mVertices = some v)
    (hstart : run.Start = s.mDrawBatcher.mNextVertex) :
    (({ s.mDrawBatcher with
        mNextVertex := s.mDrawBatcher.mNextVertex + run.NumVertices }).pushRun run).Tiled := by
  obtain ⟨hle, hvalid, hvalidL, hcur⟩ := ht
  cases hc : s.mDrawBatcher.mCurrentBatch with
  | none =>
    rw [hc] at hcur
    rw [hcur.1] at hv
    cases hv
  | some b =>
    rw [hc] at hcur
    obtain ⟨h₁, h₂, h₃, h₄⟩ := hcur
    have hruns : ∀ heap : List DrawBatch, heap = s.mDrawBatcher.heap →
        (heap.modify (fun x => { x with DrawRuns := x.DrawRuns ++ [run] }) b)[b]? =
          some { DrawRuns := s.mDrawBatcher.batchRuns b ++ [run],
                 Vertices := (s.mDrawBatcher.heap[b]).Vertices } := by
      intro heap hheap
      subst hheap
      simp [DrawBatcher.batchRuns, List.getElem?_modify, List.getElem?_eq_getElem h₂]
    simp only [DrawBatcher.pushRun, hc, DrawBatcher.Tiled]
    refine ⟨hle, ?_, ?_, h₁, ?_, ?_, ?_⟩
    · simpa [List.length_modify] using hvalid
    · simpa [List.length_modify] using hvalidL
    · simpa [List.length_modify] using h₂
    · rw [batchRuns_of_getElem? (hruns _ rfl)]
      exact consecutiveFrom_append _ _ _ h₃ (by rw [hstart, h₄]; simp)
    · rw [batchRuns_of_getElem? (hruns _ rfl)]
      simp only [totalVertices_append]
      rw [h₄]

/-- Recording a run that starts at `0` in a batch freshly taken from the pool keeps the
tiling. -/
theorem Tiled_push_acquire (h : HardpolyRenderer) (run : DrawRun)
    (ht : h.mDrawBatcher.Tiled) (hn : h.mDrawBatcher.mNextVertex = 0) (hstart : run.Start = 0) :
    (({ (DrawBatcher.acquire h).mDrawBatcher with
        mNextVertex := (DrawBatcher.acquire h).mDrawBatcher.mNextVertex + run.NumVertices
      }).pushRun run).Tiled := by
  obtain ⟨hle, hvalid, hvalidL, -⟩ := ht
  obtain ⟨b, cur, heap, hd, -, hslot, hheap, hlen, hcases⟩ := acquire_spec h hle hvalid
  have hblt : b < heap.length := (List.getElem?_eq_some.mp hheap).1
  have hcurlen : h.mDrawBatcher.mNextBatch < cur.length := (List.getElem?_eq_some.mp hslot).1
  have hcurvalid : ∀ id ∈ cur, id < heap.length := by
    intro id hid
    rcases hcases with rfl | ⟨rfl, hlt⟩
    · exact lt_of_lt_of_le (hvalid id hid) hlen
    · rcases List.mem_append.mp hid with h1 | h1
      · exact lt_of_lt_of_le (hvalid id h1) hlen
      · simp at h1
        omega
  have hruns : (heap.modify (fun x => { x with DrawRuns := x.DrawRuns ++ [run] }) b)[b]? =
      some { DrawRuns := [run], Vertices := true } := by
    simp [List.getElem?_modify, hheap]
  simp only [hd, DrawBatcher.pushRun, DrawBatcher.Tiled, hn]
  refine ⟨hcurlen, ?_, ?_, trivial, ?_, ?_, ?_⟩
  · simpa [List.length_modify] using hcurvalid
  · intro id hid
    have := hvalidL id hid
    simp only [List.length_modify]
    omega
  · simpa [List.length_modify] using hblt
  · rw [batchRuns_of_getElem? hruns]
    exact ⟨hstart, trivial⟩
  · rw [batchRuns_of_getElem? hruns]
    simp [totalVertices]

theorem Tiled_DrawArray (s : HardpolyRenderer) (a : PolyDrawArgs) (ht : s.mDrawBatcher.Tiled) :
    (s.DrawArray G a).mDrawBatcher.Tiled := by
  by_cases hacc : accepted a = true
  · rw [DrawArray_accepted G s a hacc]
    rcases GetVertices_cases G s a.VertexCount with ⟨⟨v, hv⟩, h⟩ | ⟨hv, h⟩ | h
    · rw [h]
      exact Tiled_push_current s (makeRun a s.mDrawBatcher.mNextVertex) ht hv rfl
    · rw [h]
      have hn : s.mDrawBatcher.mNextVertex = 0 := by
        have hcur := ht.2.2.2
        cases hc : s.mDrawBatcher.mCurrentBatch with
        | none => rw [hc] at hcur; exact hcur.2
        | some b =>
          rw [hc] at hcur
          rw [hcur.1] at hv
          cases hv
      exact Tiled_push_acquire s _ ht hn (by simp [makeRun, hn])
    · rw [h]
      exact Tiled_push_acquire _ _ (Tiled_Flush G s ht) (by simp) (by simp [makeRun])
  · rw [DrawArray_rejected G s a (by simpa using hacc)]
    exact ht

theorem Tiled_step (s : HardpolyRenderer) (op : Op) (ht : s.mDrawBatcher.Tiled) :
    (s.step G op).mDrawBatcher.Tiled := by
  cases op with
  | Begin =>
    simp only [HardpolyRenderer.step, Begin_batcher]
    exact Tiled_NextFrame _ ht
  | End =>
    simpa [HardpolyRenderer.step, HardpolyRenderer.End] using Tiled_Flush G s ht
  | ClearBuffers =>
    simpa [HardpolyRenderer.step, HardpolyRenderer.ClearBuffers] using Tiled_Flush G s ht
  | SetViewport x y w h =>
    simpa [HardpolyRenderer.step, HardpolyRenderer.SetViewport] using Tiled_Flush G s ht
  | DrawArray a => exact Tiled_DrawArray G s a ht
  | DrawRect args => simpa [HardpolyRenderer.step] using ht

theorem Tiled_foldl_step (ops : List Op) (s : HardpolyRenderer) (ht : s.mDrawBatcher.Tiled) :
    (ops.foldl (HardpolyRenderer.step G) s).mDrawBatcher.Tiled := by
  induction ops generalizing s with
  | nil => exact ht
  | cons op rest ih => exact ih _ (Tiled_step G s op ht)

/-- C14: in every state reached from the fresh renderer by any sequence of `Begin`,
`DrawArray`, `DrawRect`, `ClearBuffers`, `SetViewport` and `End` calls, the runs of the current
batch tile the written vertex range: the first run has `Start = 0`, each following run has
`Start` equal to `Start + NumVertices` of the run before it, and `mNextVertex` is the sum of
`NumVertices` over these runs; without a current batch there are no such runs and
`mNextVertex = 0`. -/
theorem C14_runs_tile_written_vertices (G : Globals) (ops : List Op) :
    tilesFromZero (ops.foldl (HardpolyRenderer.step G) HardpolyRenderer.init).mDrawBatcher.pending ∧
    (ops.foldl (HardpolyRenderer.step G) HardpolyRenderer.init).mDrawBatcher.mNextVertex =
      totalVertices (ops.foldl (HardpolyRenderer.step G) HardpolyRenderer.init).mDrawBatcher.pending ∧
    ((ops.foldl (HardpolyRenderer.step G) HardpolyRenderer.init).mDrawBatcher.mCurrentBatch = none →
      (ops.foldl (HardpolyRenderer.step G) HardpolyRenderer.init).mDrawBatcher.pending = [] ∧
      (ops.foldl (HardpolyRenderer.step G) HardpolyRenderer.init).mDrawBatcher.mNextVertex = 0) := by
  have ht := Tiled_foldl_step G ops HardpolyRenderer.init Tiled_init
  generalize ops.foldl (HardpolyRenderer.step G) HardpolyRenderer.init = s at ht ⊢
  obtain ⟨-, -, -, hcur⟩ := ht
  cases hc : s.mDrawBatcher.mCurrentBatch with
  | none =>
    rw [hc] at hcur
    have hp : s.mDrawBatcher.pending = [] := by simp [DrawBatcher.pending, hc]
    rw [hp]
    exact ⟨⟨fun r hr => by simp at hr, List.chain'_nil⟩, by simpa [totalVertices] using hcur.2,
      fun _ => ⟨rfl, hcur.2⟩⟩
  | some b =>
    rw [hc] at hcur
    rw [pending_of_current hc]
    exact ⟨tilesFromZero_of_consecutiveFrom _ 0 hcur.2.2.1, hcur.2.2.2,
      fun h => by cases h⟩

end Tiling

end Hardpoly
